import Mathlib

/-
Verification development for the KinomeMETA Reptile meta-learner
(KinomeMETA/Reptile/meta.py).

The Python file defines two classes:
 * `Learner` owns a base network `self.net` (theta) and a working network
   `self.net_pi` (theta_pi), copies theta -> theta_pi (`update_pi`), adapts
   theta_pi on a support set by plain SGD (lr 0.001), and returns the query
   loss, the query gradient of theta_pi (`grads_pi`) and six metrics.
 * `MetaLearner` loops over a meta-batch of episodes, accumulates the
   per-episode gradients element-wise (`sum_grads_pi`), computes a dummy loss
   on the base network and injects the accumulated gradient into the base
   parameters through `register_hook` closures before a single Adam step
   (`write_grads`).

The embedding below models tensors as flat lists of rationals living in an
explicit storage heap, so that the aliasing facts of the source
(`.data = ....data.clone()` giving fresh storage while the Parameter object
identity is preserved, hooks registered on specific parameter objects) are
faithfully represented.  The graph neural network, autograd and the metric
functions are external collaborators of this file (out of scope per the
design) and are modelled as oracle functions supplied per episode.
-/

namespace KinomeMETA

/-- A tensor value: the flattened contents of one weight/bias tensor. -/
abbrev Val := List ℚ

/-- Element-wise addition, `torch.add` on same-shape tensors. -/
def addVal (a b : Val) : Val := (a.zip b).map fun p => p.1 + p.2

/-- Element-wise subtraction. -/
def subVal (a b : Val) : Val := (a.zip b).map fun p => p.1 - p.2

/-- Scalar multiple of a tensor. -/
def smulVal (c : ℚ) (a : Val) : Val := a.map fun x => c * x

/-- Inner-loop learning rate: `optim.SGD(self.net_pi.parameters(), 0.001)`. -/
def learner_lr : ℚ := 1 / 1000

/-- Identity of a `nn.Parameter` object (stable across `.data` rebinding). -/
abbrev ParamId := Nat

/-- Index of an allocated tensor storage in the heap. -/
abbrev Ref := Nat

/-- Tensor storage.  `paramData p` is the heap cell currently bound to the
`.data` attribute of parameter object `p`; `heap r` is the contents of
storage cell `r`. -/
structure Store where
  paramData : List Ref
  heap : List Val
deriving DecidableEq

/-- Heap cell currently bound to parameter `p` (none if `p` is not a live
parameter object). -/
def Store.refOf (s : Store) (p : ParamId) : Option Ref := s.paramData.get? p

/-- Current tensor value of parameter `p`. -/
def Store.dataOf (s : Store) (p : ParamId) : Val :=
  match s.refOf p with
  | some r => s.heap.getD r []
  | none => []

/-- In-place write into the storage bound to parameter `p` (what an optimizer
step does to `p.data`). -/
def Store.writeData (s : Store) (p : ParamId) (v : Val) : Store :=
  match s.refOf p with
  | some r => { s with heap := s.heap.set r v }
  | none => s

/-- Model of `dst.data = src.data.clone()`: allocate a fresh storage cell
holding a copy of `src`'s current value and rebind `dst`'s `.data` to it. -/
def Store.cloneAssign (s : Store) (src dst : ParamId) : Store :=
  { paramData := s.paramData.set dst s.heap.length,
    heap := s.heap ++ [s.dataOf src] }

/-- Well-formed store: every live parameter points into the heap, and no two
parameter objects alias the same storage cell. -/
def Store.WF (s : Store) : Prop :=
  (∀ r ∈ s.paramData, r < s.heap.length) ∧ s.paramData.Nodup

instance (s : Store) : Decidable s.WF := by
  unfold Store.WF; infer_instance

/-- Classification of a module in `self.net.modules()` as tested by
`Learner.update_pi` (`nn.Linear` / `nn.Conv2d` / `nn.BatchNorm2d` /
anything else). -/
inductive LayerKind
  | linear
  | conv2d
  | batchNorm2d
  | other
deriving DecidableEq

/-- A parameter-bearing module: its kind, its `weight` parameter object and
its optional `bias` parameter object. -/
structure Layer where
  kind : LayerKind
  weight : ParamId
  bias : Option ParamId
deriving DecidableEq

instance : Inhabited Layer := ⟨⟨LayerKind.other, 0, none⟩⟩

/-- Does `update_pi` copy this module (`isinstance(m_to, nn.Linear) or
isinstance(m_to, nn.Conv2d) or isinstance(m_to, nn.BatchNorm2d)`)? -/
def Layer.copyKind (l : Layer) : Bool :=
  l.kind == LayerKind.linear || l.kind == LayerKind.conv2d || l.kind == LayerKind.batchNorm2d

/-- A network: the ordered list of its parameter-bearing modules. -/
structure Net where
  layers : List Layer
deriving DecidableEq

/-- `net.parameters()`: ordered enumeration of the parameter objects, weight
before bias inside each module, modules in registration order. -/
def Net.params (n : Net) : List ParamId :=
  n.layers.flatMap fun l => l.weight :: l.bias.toList

/-- The `Learner` object: base network `net` (theta), working network
`net_pi` (theta_pi), and the parameter objects captured by
`optim.SGD(self.net_pi.parameters(), 0.001)` at construction time. -/
structure Learner where
  net : Net
  netPi : Net
  innerOptPids : List ParamId
deriving DecidableEq

/-- `Learner.parameters`: overridden to `return self.net.parameters()`,
ignoring theta_pi parameters. -/
def Learner.parameters (L : Learner) : List ParamId := L.net.params

/-- Copy of one module pair inside `update_pi`:
`m_to.weight.data = m_from.weight.data.clone()` and, when
`m_to.bias is not None`, `m_to.bias.data = m_from.bias.data.clone()`. -/
def copyLayer (s : Store) (mFrom mTo : Layer) : Store :=
  if mTo.copyKind then
    let s1 := s.cloneAssign mFrom.weight mTo.weight
    match mTo.bias, mFrom.bias with
    | some bTo, some bFrom => s1.cloneAssign bFrom bTo
    | _, _ => s1
  else s

/-- `Learner.update_pi`: copy parameters from `self.net` to `self.net_pi` by
value, iterating `zip(self.net.modules(), self.net_pi.modules())`. -/
def Learner.update_pi (L : Learner) (s : Store) : Store :=
  (L.net.layers.zip L.netPi.layers).foldl (fun st pr => copyLayer st pr.1 pr.2) s

/-- The parameter objects whose storage `copyLayer` rebinds for one module
pair (empty for non-copyable kinds). -/
def writesOf (pr : Layer × Layer) : List ParamId :=
  if pr.2.copyKind then
    pr.2.weight :: (match pr.2.bias, pr.1.bias with
      | some bTo, some _ => [bTo]
      | _, _ => [])
  else []

/-- An optimizer step loop: for each parameter object held by the optimizer,
look up its `.grad` in the gradient buffer and overwrite `p.data` in place
with `upd current_value grad`; parameters without a gradient are skipped
(torch skips `p.grad is None`). -/
def stepWith (upd : Val → Val → Val) (gbuf : List (ParamId × Val))
    (pids : List ParamId) (s : Store) : Store :=
  pids.foldl (fun st p =>
    match gbuf.find? (fun q => q.1 == p) with
    | some pg => st.writeData p (upd (st.dataOf p) pg.2)
    | none => st) s

/-- One inner-loop iteration of `Learner.forward`:
`loss, ... = self.net_pi(support...)`, `self.optimizer.zero_grad()`,
`loss.backward()` (gradients land on `self.net_pi.parameters()`), then
`self.optimizer.step()` over the parameter objects captured at construction.
`gradSupport` is the autograd oracle giving the gradient of the support loss
at the current working-network parameter values. -/
def innerStep (L : Learner) (gradSupport : List Val → List Val) (s : Store) : Store :=
  let gbuf := L.netPi.params.zip (gradSupport (L.netPi.params.map s.dataOf))
  stepWith (fun v g => subVal v (smulVal learner_lr g)) gbuf L.innerOptPids s

/-- The six metric scalars computed on the query set
(accuracy, precision, recall, MCC, ROC-AUC, F1). -/
structure Metrics where
  acc : ℚ
  pre_score : ℚ
  recall_score : ℚ
  mcc_score : ℚ
  roc_score : ℚ
  f1_score : ℚ
deriving DecidableEq

/-- External collaborators of one episode, as oracle functions of the current
parameter values: the autograd gradient of the support loss w.r.t. theta_pi,
the query loss and its gradient w.r.t. theta_pi (`autograd.grad` with
`create_graph=True`), the metric bundle, and the gradient that the dummy
backward pass on the base network would naturally produce. -/
structure EpisodeOracles where
  gradSupport : List Val → List Val
  queryLoss : List Val → ℚ
  gradQuery : List Val → List Val
  metrics : List Val → Metrics
  dummyGrad : List Val → List Val

/-- Observable steps of a meta-training step, recorded in order: one learner
episode, the dummy forward pass on the base network (with the index of the
episode whose support set it uses), and one optimizer step on the listed base
parameters. -/
inductive MEvent
  | episodeRun (idx : Nat)
  | dummyForward (idx : Nat)
  | optStep (pids : List ParamId)
deriving DecidableEq

/-- Mutable state threaded through a meta-training step: tensor storage, the
hooks currently registered on parameter objects (a hook is defunctionalized
to its captured index `ii`, semantics `fun grad => sum_grads_pi[ii]`), the
`.grad` buffers written by the last backward pass, and the event trace. -/
structure MetaState where
  store : Store
  hooks : List (ParamId × Nat)
  gradBuf : List (ParamId × Val)
  events : List MEvent
deriving DecidableEq

/-- `Learner.forward` on one episode: `self.update_pi()`, then `num_updates`
inner SGD iterations on the support set, then the query loss, the query
gradient `grads_pi` (kept differentiable in the source via
`create_graph=True`) and the six metrics computed at the adapted
working-network parameters. -/
def Learner.forward (L : Learner) (O : EpisodeOracles) (num_updates : Nat)
    (idx : Nat) (st : MetaState) : MetaState × ℚ × List Val × Metrics :=
  let s1 := L.update_pi st.store
  let s2 := (List.range num_updates).foldl (fun s _ => innerStep L O.gradSupport s) s1
  let vals := L.netPi.params.map s2.dataOf
  ({ st with store := s2, events := st.events ++ [MEvent.episodeRun idx] },
   O.queryLoss vals, O.gradQuery vals, O.metrics vals)

/-- `Learner.net_forward`: run the base network forward on a support set to
obtain the dummy loss.  The dummy loss is modelled by the natural gradient
its backward pass would produce at the current base parameters. -/
def Learner.net_forward (L : Learner) (O : EpisodeOracles) (idx : Nat)
    (st : MetaState) : MetaState × List Val :=
  ({ st with events := st.events ++ [MEvent.dummyForward idx] },
   O.dummyGrad (L.net.params.map st.store.dataOf))

/-- The `MetaLearner` object: its learner and the parameter objects captured
by `optim.Adam(self.learner.parameters(), lr=meta_lr)` at construction. -/
structure MetaLearner where
  learner : Learner
  metaOptPids : List ParamId
deriving DecidableEq

/-- The hooks registered by `write_grads`: for `i, v` in
`enumerate(self.learner.parameters())`, `closure()` binds `ii = i` at call
time and registers `lambda grad: sum_grads_pi[ii]` on parameter object `v`. -/
def hooksFor (M : MetaLearner) : List (ParamId × Nat) :=
  M.learner.parameters.enum.map fun iv => (iv.2, iv.1)

/-- Effect of the hooks on the gradient reaching parameter object `p` during
the dummy backward pass: the first hook registered on `p` replaces the
natural gradient `g` by `sum_grads_pi[ii]`; indexing past the end of
`sum_grads_pi` raises (IndexError), modelled by `none`. -/
def hookOutput (hooks : List (ParamId × Nat)) (sumGrads : List Val)
    (p : ParamId) (g : Val) : Option Val :=
  match hooks.find? (fun h => h.1 == p) with
  | some h => sumGrads.get? h.2
  | none => some g

/-- `dummy_loss.backward()`: each parameter object receives its natural
gradient filtered through the registered hooks; the first hook that raises
aborts the whole backward pass. -/
def backwardWithHooks (hooks : List (ParamId × Nat)) (sumGrads : List Val) :
    List (ParamId × Val) → Option (List (ParamId × Val))
  | [] => some []
  | pg :: rest =>
    match hookOutput hooks sumGrads pg.1 pg.2 with
    | none => none
    | some v =>
      match backwardWithHooks hooks sumGrads rest with
      | none => none
      | some gb => some ((pg.1, v) :: gb)

/-- `MetaLearner.write_grads`: register one hook per base parameter, then
`self.optimizer.zero_grad()`, `dummy_loss.backward()`,
`self.optimizer.step()`, and only then `for h in hooks: h.remove()`.
An exception inside the backward pass propagates before the removal loop
runs, so the error state keeps the registered hooks.  `stepRule` is the
update rule of the Adam optimizer on one parameter (old value, grad ↦ new
value); `dummyGrads` are the natural gradients of the dummy loss. -/
def MetaLearner.write_grads (M : MetaLearner) (stepRule : Val → Val → Val)
    (dummyGrads sumGrads : List Val) (st : MetaState) :
    Except MetaState MetaState :=
  let st1 := { st with hooks := st.hooks ++ hooksFor M }
  let st2 := { st1 with gradBuf := [] }
  match backwardWithHooks st2.hooks sumGrads (M.learner.parameters.zip dummyGrads) with
  | none => Except.error st2
  | some gb =>
    let st3 := { st2 with gradBuf := gb }
    let st4 := { st3 with
      store := stepWith stepRule st3.gradBuf M.metaOptPids st3.store,
      events := st3.events ++ [MEvent.optStep M.metaOptPids] }
    Except.ok { st4 with hooks := st.hooks }

/-- Accumulation step of `MetaLearner.forward`: `if sum_grads_pi is None:
sum_grads_pi = grad_pi else: sum_grads_pi = [torch.add(i, j) for i, j in
zip(sum_grads_pi, grad_pi)]`. -/
def accumStep (sum : Option (List Val)) (g : List Val) : Option (List Val) :=
  match sum with
  | none => some g
  | some sg => some ((sg.zip g).map fun p => addVal p.1 p.2)

/-- Folding the accumulation step over a list of per-episode gradient
vectors, starting from the explicit absence state `None`. -/
def accumGrads (gs : List (List Val)) : Option (List Val) :=
  gs.foldl accumStep none

/-- The episode loop of `MetaLearner.forward` (`for i in range(meta_batchsz)`):
run the learner on episode `i`, append `episode_scores[4]` (the ROC score) to
`rocs` and the query loss to `losses`, and accumulate `grad_pi` into
`sum_grads_pi`. -/
def metaLoop (L : Learner) (num_updates : Nat) :
    List EpisodeOracles → Nat → Option (List Val) → List ℚ → List ℚ →
    MetaState → Option (List Val) × List ℚ × List ℚ × MetaState
  | [], _, sum, losses, rocs, st => (sum, losses, rocs, st)
  | O :: rest, i, sum, losses, rocs, st =>
    let r := L.forward O num_updates i st
    metaLoop L num_updates rest (i + 1) (accumStep sum r.2.2.1)
      (losses ++ [r.2.1]) (rocs ++ [r.2.2.2.roc_score]) r.1

/-- `MetaLearner.forward` (meta_train): run the episode loop, obtain the
dummy loss from the base network on the FIRST episode's support set, write
the accumulated gradients and step the Adam optimizer once, then return the
loss list and ROC list.  An empty meta-batch raises (`support_x_atom[0]`). -/
def MetaLearner.forward (M : MetaLearner) (stepRule : Val → Val → Val)
    (eps : List EpisodeOracles) (num_updates : Nat) (st : MetaState) :
    Except MetaState (MetaState × List ℚ × List ℚ) :=
  let r := metaLoop M.learner num_updates eps 0 none [] [] st
  match eps.head?, r.1 with
  | some O0, some sumGrads =>
    let d := M.learner.net_forward O0 0 r.2.2.2
    match M.write_grads stepRule d.2 sumGrads d.1 with
    | Except.ok st3 => Except.ok (st3, r.2.1, r.2.2.1)
    | Except.error e => Except.error e
  | _, _ => Except.error r.2.2.2

/-- The seven per-episode score lists collected by `MetaLearner.pred`. -/
structure PredAcc where
  accs : List ℚ
  losses : List ℚ
  pres : List ℚ
  recalls : List ℚ
  mccs : List ℚ
  rocs : List ℚ
  f1s : List ℚ
deriving DecidableEq

/-- The episode loop of `MetaLearner.pred`: identical learner call, the
returned gradient is bound to `_` and discarded, and the seven score lists
are appended to.  No accumulation, no hooks, no optimizer step. -/
def predLoop (L : Learner) (num_updates : Nat) :
    List EpisodeOracles → Nat → PredAcc → MetaState → PredAcc × MetaState
  | [], _, acc, st => (acc, st)
  | O :: rest, i, acc, st =>
    let r := L.forward O num_updates i st
    predLoop L num_updates rest (i + 1)
      { accs := acc.accs ++ [r.2.2.2.acc], losses := acc.losses ++ [r.2.1],
        pres := acc.pres ++ [r.2.2.2.pre_score], recalls := acc.recalls ++ [r.2.2.2.recall_score],
        mccs := acc.mccs ++ [r.2.2.2.mcc_score], rocs := acc.rocs ++ [r.2.2.2.roc_score],
        f1s := acc.f1s ++ [r.2.2.2.f1_score] } r.1

/-- Arithmetic mean of a list of scalars (`np.array(xs).mean()`). -/
def mean (l : List ℚ) : ℚ := l.sum / (l.length : ℚ)

/-- `MetaLearner.pred` (meta_eval): run the episode loop and return the
per-episode loss list together with the mean of each of the six metrics
across the meta-batch. -/
def MetaLearner.pred (M : MetaLearner) (eps : List EpisodeOracles)
    (num_updates : Nat) (st : MetaState) :
    MetaState × List ℚ × ℚ × ℚ × ℚ × ℚ × ℚ × ℚ :=
  let r := predLoop M.learner num_updates eps 0 ⟨[], [], [], [], [], [], []⟩ st
  (r.2, r.1.losses, mean r.1.accs, mean r.1.pres, mean r.1.recalls,
   mean r.1.mccs, mean r.1.rocs, mean r.1.f1s)

/-- Reference description of the shared per-episode loop: the ordered list of
(query loss, metric bundle) pairs produced by running the learner episode by
episode from a given state.  Both `MetaLearner.forward` and
`MetaLearner.pred` are proven to produce their score lists from this one
sequence. -/
def episodeOuts (L : Learner) (num_updates : Nat) :
    List EpisodeOracles → Nat → MetaState → List (ℚ × Metrics)
  | [], _, _ => []
  | O :: rest, i, st =>
    let r := L.forward O num_updates i st
    (r.2.1, r.2.2.2) :: episodeOuts L num_updates rest (i + 1) r.1

/-- Specification of one module of a network class instance: its kind, the
initial value of its weight tensor and (optionally) of its bias tensor. -/
structure LayerSpec where
  kind : LayerKind
  winit : Val
  binit : Option Val
deriving DecidableEq

/-- Number of parameter tensors a spec list creates. -/
def numParams (sps : List LayerSpec) : Nat :=
  (sps.map fun sp => 1 + if sp.binit.isSome then 1 else 0).sum

/-- Allocation of one parameter tensor: a fresh parameter object bound to a
fresh storage cell holding the initial value. -/
def allocTensor (s : Store) (v : Val) : Store × ParamId :=
  ({ paramData := s.paramData ++ [s.heap.length], heap := s.heap ++ [v] },
   s.paramData.length)

/-- Instantiation of one module. -/
def mkLayer (s : Store) (sp : LayerSpec) : Store × Layer :=
  let r1 := allocTensor s sp.winit
  match sp.binit with
  | some bv =>
    let r2 := allocTensor r1.1 bv
    (r2.1, ⟨sp.kind, r1.2, some r2.2⟩)
  | none => (r1.1, ⟨sp.kind, r1.2, none⟩)

/-- Instantiation of a module list (`net_cls(*args)` registering its
submodules in order). -/
def mkLayers (s : Store) : List LayerSpec → Store × List Layer
  | [] => (s, [])
  | sp :: rest =>
    let r1 := mkLayer s sp
    let r2 := mkLayers r1.1 rest
    (r2.1, r1.2 :: r2.2)

/-- Instantiation of a network. -/
def mkNet (s : Store) (sps : List LayerSpec) : Store × Net :=
  let r := mkLayers s sps
  (r.1, ⟨r.2⟩)

/-- `Learner.__init__`: instantiate `net_cls(*args)` twice (the two instances
have the same architecture but independent, freshly allocated parameters),
then capture `self.net_pi.parameters()` in `optim.SGD(...)`. -/
def mkLearner (sps1 sps2 : List LayerSpec) : Store × Learner :=
  let r1 := mkNet ⟨[], []⟩ sps1
  let r2 := mkNet r1.1 sps2
  (r2.1, ⟨r1.2, r2.2, r2.2.params⟩)

/-- `MetaLearner.__init__`: build the learner and capture
`self.learner.parameters()` in `optim.Adam(...)`. -/
def mkMetaLearner (sps1 sps2 : List LayerSpec) : Store × MetaLearner :=
  let r := mkLearner sps1 sps2
  (r.1, ⟨r.2, r.2.parameters⟩)

instance : Inhabited LayerSpec := ⟨⟨LayerKind.other, [], none⟩⟩

/-- Structural agreement of the two spec lists passed to `mkLearner`
(guaranteed in the source because both networks are `net_cls(*args)` for the
same class and arguments). -/
def specAligned (sps1 sps2 : List LayerSpec) : Prop :=
  sps1.length = sps2.length ∧
  ∀ i ∈ List.range sps1.length,
    (sps1.getD i default).kind = (sps2.getD i default).kind ∧
    ((sps1.getD i default).binit.isSome ↔ (sps2.getD i default).binit.isSome)

instance (sps1 sps2 : List LayerSpec) : Decidable (specAligned sps1 sps2) := by
  unfold specAligned; infer_instance

/-- Well-formedness of a learner over a store: well-formed storage, all
parameter objects of both networks live, no duplicate parameter objects
within or across the two networks, the inner SGD optimizer holds exactly
the working network's parameter objects, and the two architectures agree
module-by-module (same class, same arguments). -/
def LearnerWF (L : Learner) (s : Store) : Prop :=
  s.WF ∧
  (∀ p ∈ L.net.params, p < s.paramData.length) ∧
  (∀ p ∈ L.netPi.params, p < s.paramData.length) ∧
  L.net.params.Nodup ∧
  L.netPi.params.Nodup ∧
  (∀ p ∈ L.net.params, p ∉ L.netPi.params) ∧
  L.innerOptPids = L.netPi.params ∧
  L.net.layers.length = L.netPi.layers.length ∧
  ∀ i ∈ List.range L.net.layers.length,
    (L.net.layers.getD i default).kind = (L.netPi.layers.getD i default).kind ∧
    ((L.net.layers.getD i default).bias.isSome ↔ (L.netPi.layers.getD i default).bias.isSome)

instance (L : Learner) (s : Store) : Decidable (LearnerWF L s) := by
  unfold LearnerWF; infer_instance

/-- Hooks present on an exit state of `write_grads`, whether it returned
normally or raised. -/
def exitHooks : Except MetaState MetaState → List (ParamId × Nat)
  | Except.ok s => s.hooks
  | Except.error s => s.hooks

/-- Did `write_grads` return normally? -/
def wgIsOk : Except MetaState MetaState → Bool
  | Except.ok _ => true
  | Except.error _ => false

/-- State of an exit of `write_grads` (normal or exceptional). -/
def wgState : Except MetaState MetaState → MetaState
  | Except.ok s => s
  | Except.error s => s

/-- Result triple of `MetaLearner.forward`, with empty lists on an
exceptional exit. -/
def mtOut : Except MetaState (MetaState × List ℚ × List ℚ) →
    MetaState × List ℚ × List ℚ
  | Except.ok x => x
  | Except.error s => (s, [], [])

/-- Did `MetaLearner.forward` return normally? -/
def mtIsOk : Except MetaState (MetaState × List ℚ × List ℚ) → Bool
  | Except.ok _ => true
  | Except.error _ => false

/-- Specification-side description of one plain (non-momentum) SGD update of
the working parameters with the fixed inner learning rate, used to compare
the inner loop of `Learner.forward` against the spec's description. -/
def sgdStepSpec (g : List Val → List Val) (vs : List Val) : List Val :=
  (vs.zip (g vs)).map fun p => subVal p.1 (smulVal learner_lr p.2)

/-- Concrete two-module architecture used by the witnesses: a linear module
(weight of size 2, bias of size 1) followed by a module of a kind
`update_pi` does not handle. -/
def exSpecs1 : List LayerSpec :=
  [⟨LayerKind.linear, [1, 2], some [3]⟩, ⟨LayerKind.other, [7], none⟩]

/-- Initial values of the second `net_cls(*args)` instance (the working
network) for the witness architecture. -/
def exSpecs2 : List LayerSpec :=
  [⟨LayerKind.linear, [4, 5], some [6]⟩, ⟨LayerKind.other, [8], none⟩]

/-- The witness learner's tensor storage right after construction. -/
def exStore : Store := (mkLearner exSpecs1 exSpecs2).1

/-- The witness learner. -/
def exLearner : Learner := (mkLearner exSpecs1 exSpecs2).2

/-- The witness meta-learner. -/
def exMeta : MetaLearner := (mkMetaLearner exSpecs1 exSpecs2).2

/-- The witness meta-state: fresh storage, no hooks, no gradients, empty
trace. -/
def exState : MetaState := ⟨(mkMetaLearner exSpecs1 exSpecs2).1, [], [], []⟩

/-- A concrete optimizer update rule used by the witnesses: it overwrites
the parameter with the received gradient, which makes the injected value
directly observable. -/
def exStep : Val → Val → Val := fun _v g => g

/-- Concrete episode oracles used by the witnesses. -/
def exOracle : EpisodeOracles :=
  { gradSupport := fun _ => [[1, 1], [1], [1]]
    queryLoss := fun _ => 10
    gradQuery := fun _ => [[2, 2], [2], [2]]
    metrics := fun _ => ⟨1, 2, 3, 4, 5, 6⟩
    dummyGrad := fun _ => [[9, 9], [9], [9]] }

theorem length_addVal (a b : Val) : (addVal a b).length = min a.length b.length := by
  simp [addVal]

theorem getD_addVal {a b : Val} {t : Nat} (ha : t < a.length) (hb : t < b.length) :
    (addVal a b).getD t 0 = a.getD t 0 + b.getD t 0 := by
  have hz : t < (a.zip b).length := by
    simp only [List.length_zip]
    omega
  rw [addVal, List.getD_eq_getElem?_getD, List.getElem?_map, List.getElem?_eq_getElem hz,
    List.getElem_zip, List.getD_eq_getElem?_getD, List.getD_eq_getElem?_getD,
    List.getElem?_eq_getElem ha, List.getElem?_eq_getElem hb]
  rfl

theorem length_subVal (a b : Val) : (subVal a b).length = min a.length b.length := by
  simp [subVal]

theorem length_smulVal (c : ℚ) (a : Val) : (smulVal c a).length = a.length := by
  simp [smulVal]

namespace Store

theorem refOf_writeData (s : Store) (p q : ParamId) (v : Val) :
    (s.writeData p v).refOf q = s.refOf q := by
  unfold writeData
  cases h : s.refOf p <;> rfl

theorem paramData_writeData (s : Store) (p : ParamId) (v : Val) :
    (s.writeData p v).paramData = s.paramData := by
  unfold writeData
  cases h : s.refOf p <;> rfl

theorem heapLength_writeData (s : Store) (p : ParamId) (v : Val) :
    (s.writeData p v).heap.length = s.heap.length := by
  unfold writeData
  cases h : s.refOf p <;> simp

theorem WF_writeData {s : Store} (hs : s.WF) (p : ParamId) (v : Val) :
    (s.writeData p v).WF := by
  obtain ⟨hb, hn⟩ := hs
  refine ⟨?_, ?_⟩
  · rw [paramData_writeData, heapLength_writeData]
    exact hb
  · rw [paramData_writeData]
    exact hn

theorem refOf_eq_some {s : Store} {p : ParamId} (hp : p < s.paramData.length) :
    s.refOf p = some (s.paramData.getD p 0) := by
  rw [refOf, List.get?_eq_getElem?, List.getElem?_eq_getElem hp, List.getD_eq_getElem?_getD,
    List.getElem?_eq_getElem hp]
  rfl

theorem refOf_lt_of_WF {s : Store} (hs : s.WF) {p : ParamId} {r : Ref}
    (h : s.refOf p = some r) : r < s.heap.length := by
  rw [refOf, List.get?_eq_getElem?] at h
  obtain ⟨hl, he⟩ := List.getElem?_eq_some.mp h
  exact hs.1 r (he ▸ List.getElem_mem hl)

theorem refOf_inj {s : Store} (hs : s.WF) {p q : ParamId} {r : Ref}
    (hp : s.refOf p = some r) (hq : s.refOf q = some r) : p = q := by
  rw [refOf, List.get?_eq_getElem?] at hp hq
  obtain ⟨hpl, hpe⟩ := List.getElem?_eq_some.mp hp
  obtain ⟨hql, hqe⟩ := List.getElem?_eq_some.mp hq
  exact (List.Nodup.getElem_inj_iff hs.2).mp (hpe.trans hqe.symm)

theorem dataOf_writeData_self {s : Store} (hs : s.WF) {p : ParamId}
    (hp : p < s.paramData.length) (v : Val) :
    (s.writeData p v).dataOf p = v := by
  have hr := refOf_eq_some hp
  have hlt : s.paramData.getD p 0 < s.heap.length := refOf_lt_of_WF hs hr
  unfold writeData
  rw [hr]
  show Store.dataOf _ p = v
  rw [dataOf]
  have hq : ({ s with heap := s.heap.set (s.paramData.getD p 0) v } : Store).refOf p
      = s.refOf p := rfl
  rw [hq, hr]
  show (s.heap.set (s.paramData.getD p 0) v).getD (s.paramData.getD p 0) [] = v
  rw [List.getD_eq_getElem?_getD, List.getElem?_set_self hlt]
  rfl

theorem dataOf_writeData_ne {s : Store} (hs : s.WF) {p q : ParamId}
    (hne : p ≠ q) (v : Val) :
    (s.writeData p v).dataOf q = s.dataOf q := by
  unfold writeData
  cases hp : s.refOf p with
  | none => rfl
  | some r =>
    simp only [dataOf]
    have hq : ({ s with heap := s.heap.set r v } : Store).refOf q = s.refOf q := rfl
    rw [hq]
    cases hq2 : s.refOf q with
    | none => rfl
    | some r2 =>
      have hrne : r ≠ r2 := by
        intro h
        exact hne (refOf_inj hs hp (h ▸ hq2))
      simp [List.getD_eq_getElem?_getD, List.getElem?_set_ne hrne]

theorem paramDataLength_cloneAssign (s : Store) (src dst : ParamId) :
    (s.cloneAssign src dst).paramData.length = s.paramData.length := by
  simp [cloneAssign]

theorem heapLength_cloneAssign (s : Store) (src dst : ParamId) :
    (s.cloneAssign src dst).heap.length = s.heap.length + 1 := by
  simp [cloneAssign]

theorem refOf_cloneAssign_self {s : Store} {dst : ParamId}
    (h : dst < s.paramData.length) (src : ParamId) :
    (s.cloneAssign src dst).refOf dst = some s.heap.length := by
  simp [cloneAssign, refOf, List.get?_eq_getElem?, List.getElem?_set_self h]

theorem refOf_cloneAssign_ne {s : Store} {q dst : ParamId} (h : dst ≠ q) (src : ParamId) :
    (s.cloneAssign src dst).refOf q = s.refOf q := by
  simp [cloneAssign, refOf, List.get?_eq_getElem?, List.getElem?_set_ne h]

theorem dataOf_cloneAssign_self {s : Store} {dst : ParamId}
    (h : dst < s.paramData.length) (src : ParamId) :
    (s.cloneAssign src dst).dataOf dst = s.dataOf src := by
  rw [dataOf, refOf_cloneAssign_self h]
  show (s.heap ++ [s.dataOf src]).getD s.heap.length [] = s.dataOf src
  simp [List.getD_eq_getElem?_getD, List.getElem?_concat_length]

theorem dataOf_cloneAssign_ne {s : Store} (hs : s.WF) {q dst : ParamId}
    (h : dst ≠ q) (src : ParamId) :
    (s.cloneAssign src dst).dataOf q = s.dataOf q := by
  rw [dataOf, refOf_cloneAssign_ne h, dataOf]
  cases hq : s.refOf q with
  | none => rfl
  | some r =>
    have hr : r < s.heap.length := refOf_lt_of_WF hs hq
    show (s.heap ++ [s.dataOf src]).getD r [] = s.heap.getD r []
    simp [List.getD_eq_getElem?_getD, List.getElem?_append_left hr]

theorem nodup_set_of_not_mem {l : List Nat} {a : Nat}
    (hl : l.Nodup) (ha : a ∉ l) : ∀ i, (l.set i a).Nodup := by
  induction l with
  | nil => intro i; simp
  | cons b t ih =>
    intro i
    cases i with
    | zero =>
      simp only [List.set]
      rw [List.nodup_cons] at hl ⊢
      refine ⟨fun h => ha (List.mem_cons_of_mem b h), hl.2⟩
    | succ j =>
      simp only [List.set]
      rw [List.nodup_cons] at hl ⊢
      have hat : a ∉ t := fun h => ha (List.mem_cons_of_mem b h)
      have hab : b ≠ a := fun h => ha (h ▸ List.mem_cons_self b t)
      refine ⟨?_, ih hl.2 hat j⟩
      intro hmem
      rcases List.mem_or_eq_of_mem_set hmem with h | h
      · exact hl.1 h
      · exact hab h

theorem WF_cloneAssign {s : Store} (hs : s.WF) (src dst : ParamId) :
    (s.cloneAssign src dst).WF := by
  obtain ⟨hb, hn⟩ := hs
  constructor
  · intro r hr
    rw [heapLength_cloneAssign]
    simp only [cloneAssign] at hr
    rcases List.mem_or_eq_of_mem_set hr with h | h
    · exact Nat.lt_succ_of_lt (hb r h)
    · exact h ▸ Nat.lt_succ_self _
  · show (s.paramData.set dst s.heap.length).Nodup
    refine nodup_set_of_not_mem hn ?_ dst
    intro hmem
    exact absurd (hb _ hmem) (lt_irrefl _)

end Store

theorem getD_eq_getElem_of_lt {α : Type} {l : List α} {i : Nat} (h : i < l.length)
    (d : α) : l.getD i d = l[i] := by
  rw [List.getD_eq_getElem?_getD, List.getElem?_eq_getElem h]
  rfl

theorem stepWith_nil (upd : Val → Val → Val) (gbuf : List (ParamId × Val)) (s : Store) :
    stepWith upd gbuf [] s = s := rfl

theorem stepWith_cons (upd : Val → Val → Val) (gbuf : List (ParamId × Val))
    (p : ParamId) (pids : List ParamId) (s : Store) :
    stepWith upd gbuf (p :: pids) s =
      stepWith upd gbuf pids
        (match gbuf.find? (fun q => q.1 == p) with
         | some pg => s.writeData p (upd (s.dataOf p) pg.2)
         | none => s) := rfl

theorem paramData_stepWith (upd : Val → Val → Val) (gbuf : List (ParamId × Val)) :
    ∀ (pids : List ParamId) (s : Store),
    (stepWith upd gbuf pids s).paramData = s.paramData := by
  intro pids
  induction pids with
  | nil => intro s; rfl
  | cons p rest ih =>
    intro s
    rw [stepWith_cons]
    cases h : gbuf.find? (fun q => q.1 == p) with
    | none => simp only [h]; exact ih s
    | some pg =>
      simp only [h]
      rw [ih, Store.paramData_writeData]

theorem heapLength_stepWith (upd : Val → Val → Val) (gbuf : List (ParamId × Val)) :
    ∀ (pids : List ParamId) (s : Store),
    (stepWith upd gbuf pids s).heap.length = s.heap.length := by
  intro pids
  induction pids with
  | nil => intro s; rfl
  | cons p rest ih =>
    intro s
    rw [stepWith_cons]
    cases h : gbuf.find? (fun q => q.1 == p) with
    | none => simp only [h]; exact ih s
    | some pg =>
      simp only [h]
      rw [ih, Store.heapLength_writeData]

theorem WF_stepWith (upd : Val → Val → Val) (gbuf : List (ParamId × Val)) :
    ∀ (pids : List ParamId) {s : Store}, s.WF → (stepWith upd gbuf pids s).WF := by
  intro pids
  induction pids with
  | nil => intro s hs; exact hs
  | cons p rest ih =>
    intro s hs
    rw [stepWith_cons]
    cases h : gbuf.find? (fun q => q.1 == p) with
    | none => simp only [h]; exact ih hs
    | some pg =>
      simp only [h]
      exact ih (Store.WF_writeData hs p _)

theorem stepWith_dataOf_notMem (upd : Val → Val → Val) (gbuf : List (ParamId × Val))
    {q : ParamId} :
    ∀ {pids : List ParamId} {s : Store}, s.WF → q ∉ pids →
    (stepWith upd gbuf pids s).dataOf q = s.dataOf q := by
  intro pids
  induction pids with
  | nil => intro s _ _; rfl
  | cons p rest ih =>
    intro s hs hq
    have hqp : p ≠ q := fun h => hq (h ▸ List.mem_cons_self p rest)
    have hqrest : q ∉ rest := fun h => hq (List.mem_cons_of_mem _ h)
    rw [stepWith_cons]
    cases h : gbuf.find? (fun r => r.1 == p) with
    | none => simp only [h]; exact ih hs hqrest
    | some pg =>
      simp only [h]
      rw [ih (Store.WF_writeData hs p _) hqrest, Store.dataOf_writeData_ne hs hqp]

theorem stepWith_dataOf_mem (upd : Val → Val → Val) (gbuf : List (ParamId × Val))
    {p : ParamId} :
    ∀ {pids : List ParamId} {s : Store}, s.WF → pids.Nodup → p ∈ pids →
    p < s.paramData.length →
    (stepWith upd gbuf pids s).dataOf p =
      (match gbuf.find? (fun q => q.1 == p) with
       | some pg => upd (s.dataOf p) pg.2
       | none => s.dataOf p) := by
  intro pids
  induction pids with
  | nil => intro s _ _ hmem; exact absurd hmem (List.not_mem_nil p)
  | cons a rest ih =>
    intro s hs hnd hmem hlt
    rw [stepWith_cons]
    rcases List.nodup_cons.mp hnd with ⟨hanr, hndr⟩
    by_cases hap : a = p
    · subst hap
      have hnr : a ∉ rest := hanr
      cases h : gbuf.find? (fun q => q.1 == a) with
      | none =>
        simp only [h]
        exact stepWith_dataOf_notMem upd gbuf hs hnr
      | some pg =>
        simp only [h]
        rw [stepWith_dataOf_notMem upd gbuf (Store.WF_writeData hs a _) hnr,
          Store.dataOf_writeData_self hs hlt]
    · have hmemr : p ∈ rest := by
        rcases List.mem_cons.mp hmem with h | h
        · exact absurd h.symm hap
        · exact h
      cases h : gbuf.find? (fun q => q.1 == a) with
      | none => simp only [h]; exact ih hs hndr hmemr hlt
      | some pg =>
        simp only [h]
        have hlt2 : p < (s.writeData a (upd (s.dataOf a) pg.2)).paramData.length := by
          rw [Store.paramData_writeData]; exact hlt
        rw [ih (Store.WF_writeData hs a _) hndr hmemr hlt2,
          Store.dataOf_writeData_ne hs hap]

theorem find?_zip_eq :
    ∀ (pids : List ParamId) (gs : List Val), pids.Nodup →
    ∀ (i : Nat) (hi : i < pids.length) (hig : i < gs.length),
    (pids.zip gs).find? (fun q => q.1 == pids[i]) = some (pids[i], gs[i]) := by
  intro pids
  induction pids with
  | nil => intro gs _ i hi; exact absurd hi (by simp)
  | cons p pr ih =>
    intro gs hnd i hi hig
    rcases List.nodup_cons.mp hnd with ⟨hpnr, hndr⟩
    cases gs with
    | nil => exact absurd hig (by simp)
    | cons g gr =>
      rw [List.zip_cons_cons, List.find?_cons]
      cases i with
      | zero => simp
      | succ j =>
        have hj : j < pr.length := by simpa using hi
        have hjg : j < gr.length := by simpa using hig
        have hne : (p == (p :: pr)[j + 1]) = false := by
          rw [List.getElem_cons_succ]
          exact beq_eq_false_iff_ne.mpr fun h => hpnr (h ▸ List.getElem_mem hj)
        simp only [hne]
        rw [List.getElem_cons_succ]
        exact ih gr hndr j hj hjg

theorem find?_hooksFrom_eq :
    ∀ (ps : List ParamId) (n : Nat), ps.Nodup →
    ∀ (i : Nat) (hi : i < ps.length),
    ((List.enumFrom n ps).map fun iv => (iv.2, iv.1)).find? (fun h => h.1 == ps[i])
      = some (ps[i], n + i) := by
  intro ps
  induction ps with
  | nil => intro n _ i hi; exact absurd hi (by simp)
  | cons p pr ih =>
    intro n hnd i hi
    rcases List.nodup_cons.mp hnd with ⟨hpnr, hndr⟩
    rw [List.enumFrom_cons, List.map_cons, List.find?_cons]
    cases i with
    | zero => simp
    | succ j =>
      have hj : j < pr.length := by simpa using hi
      have hne : (p == (p :: pr)[j + 1]) = false := by
        rw [List.getElem_cons_succ]
        exact beq_eq_false_iff_ne.mpr fun h => hpnr (h ▸ List.getElem_mem hj)
      simp only [hne]
      rw [List.getElem_cons_succ]
      rw [ih (n + 1) hndr j hj]
      congr 1
      congr 1
      omega

theorem backwardWithHooks_map (hooks : List (ParamId × Nat)) (sumGrads : List Val)
    (f : ParamId × Val → Val) :
    ∀ (pgs : List (ParamId × Val)),
    (∀ pg ∈ pgs, hookOutput hooks sumGrads pg.1 pg.2 = some (f pg)) →
    backwardWithHooks hooks sumGrads pgs = some (pgs.map fun pg => (pg.1, f pg)) := by
  intro pgs
  induction pgs with
  | nil => intro _; rfl
  | cons pg rest ih =>
    intro h
    rw [backwardWithHooks]
    rw [h pg (List.mem_cons_self pg rest), ih fun x hx => h x (List.mem_cons_of_mem pg hx)]
    simp

theorem copyLayer_not_copyKind {s : Store} {lf lt : Layer} (h : lt.copyKind = false) :
    copyLayer s lf lt = s := by
  rw [copyLayer, h]
  simp

theorem paramDataLength_copyLayer (s : Store) (lf lt : Layer) :
    (copyLayer s lf lt).paramData.length = s.paramData.length := by
  rw [copyLayer]
  by_cases h : lt.copyKind
  · simp only [h, if_true]
    cases lt.bias <;> cases lf.bias <;>
      simp [Store.paramDataLength_cloneAssign]
  · simp [h]

theorem WF_copyLayer {s : Store} (hs : s.WF) (lf lt : Layer) : (copyLayer s lf lt).WF := by
  rw [copyLayer]
  by_cases h : lt.copyKind
  · simp only [h, if_true]
    cases lt.bias <;> cases lf.bias <;>
      simp [Store.WF_cloneAssign, Store.WF_cloneAssign (Store.WF_cloneAssign hs _ _), hs]
  · simp [h, hs]

theorem refOf_copyLayer_notMem {s : Store} {q : ParamId} {lf lt : Layer}
    (h : q ∉ writesOf (lf, lt)) :
    (copyLayer s lf lt).refOf q = s.refOf q := by
  rw [copyLayer]
  by_cases hck : lt.copyKind
  · simp only [hck, if_true]
    rw [writesOf] at h
    simp only [hck, if_true] at h
    have hw : lt.weight ≠ q := fun he => h (he ▸ List.mem_cons_self _ _)
    cases hbt : lt.bias with
    | none => simp only [hbt]; exact Store.refOf_cloneAssign_ne hw lf.weight
    | some bt =>
      cases hbf : lf.bias with
      | none => simp only [hbf]; exact Store.refOf_cloneAssign_ne hw lf.weight
      | some bf =>
        simp only [hbf]
        rw [hbt, hbf] at h
        have hb : bt ≠ q := fun he => h (he ▸ List.mem_cons_of_mem _ (List.mem_cons_self _ _))
        rw [Store.refOf_cloneAssign_ne hb bf, Store.refOf_cloneAssign_ne hw lf.weight]
  · simp [hck]

theorem dataOf_copyLayer_notMem {s : Store} (hs : s.WF) {q : ParamId} {lf lt : Layer}
    (h : q ∉ writesOf (lf, lt)) :
    (copyLayer s lf lt).dataOf q = s.dataOf q := by
  rw [copyLayer]
  by_cases hck : lt.copyKind
  · simp only [hck, if_true]
    rw [writesOf] at h
    simp only [hck, if_true] at h
    have hw : lt.weight ≠ q := fun he => h (he ▸ List.mem_cons_self _ _)
    cases hbt : lt.bias with
    | none => simp only [hbt]; exact Store.dataOf_cloneAssign_ne hs hw lf.weight
    | some bt =>
      cases hbf : lf.bias with
      | none => simp only [hbf]; exact Store.dataOf_cloneAssign_ne hs hw lf.weight
      | some bf =>
        simp only [hbf]
        rw [hbt, hbf] at h
        have hb : bt ≠ q := fun he => h (he ▸ List.mem_cons_of_mem _ (List.mem_cons_self _ _))
        rw [Store.dataOf_cloneAssign_ne (Store.WF_cloneAssign hs _ _) hb bf,
          Store.dataOf_cloneAssign_ne hs hw lf.weight]
  · simp [hck]

theorem dataOf_copyLayer_weight {s : Store} (hs : s.WF) {lf lt : Layer}
    (hck : lt.copyKind = true) (hw : lt.weight < s.paramData.length)
    (hwb : ∀ bt ∈ lt.bias, bt ≠ lt.weight) :
    (copyLayer s lf lt).dataOf lt.weight = s.dataOf lf.weight := by
  rw [copyLayer, hck]
  simp only [if_true]
  cases hbt : lt.bias with
  | none => exact Store.dataOf_cloneAssign_self hw lf.weight
  | some bt =>
    cases hbf : lf.bias with
    | none => exact Store.dataOf_cloneAssign_self hw lf.weight
    | some bf =>
      have hb : bt ≠ lt.weight := hwb bt (hbt ▸ rfl)
      rw [Store.dataOf_cloneAssign_ne (Store.WF_cloneAssign hs _ _) hb bf,
        Store.dataOf_cloneAssign_self hw lf.weight]

theorem dataOf_copyLayer_bias {s : Store} (hs : s.WF) {lf lt : Layer} {bf bt : ParamId}
    (hck : lt.copyKind = true) (hbt : lt.bias = some bt) (hbf : lf.bias = some bf)
    (hblt : bt < s.paramData.length) (hne : lt.weight ≠ bf) :
    (copyLayer s lf lt).dataOf bt = s.dataOf bf := by
  rw [copyLayer, hck]
  simp only [if_true, hbt, hbf]
  have hblt2 : bt < (s.cloneAssign lf.weight lt.weight).paramData.length := by
    rw [Store.paramDataLength_cloneAssign]; exact hblt
  rw [Store.dataOf_cloneAssign_self hblt2 bf,
    Store.dataOf_cloneAssign_ne hs hne lf.weight]

theorem foldl_copyLayer_frame :
    ∀ (pairs : List (Layer × Layer)) {s : Store} {q : ParamId}, s.WF →
    (∀ pr ∈ pairs, q ∉ writesOf pr) →
    (pairs.foldl (fun st pr => copyLayer st pr.1 pr.2) s).refOf q = s.refOf q ∧
    (pairs.foldl (fun st pr => copyLayer st pr.1 pr.2) s).dataOf q = s.dataOf q := by
  intro pairs
  induction pairs with
  | nil => intro s q _ _; exact ⟨rfl, rfl⟩
  | cons pr rest ih =>
    intro s q hs hq
    rw [List.foldl_cons]
    have h1 : q ∉ writesOf pr := hq pr (List.mem_cons_self pr rest)
    have h2 : ∀ x ∈ rest, q ∉ writesOf x := fun x hx => hq x (List.mem_cons_of_mem pr hx)
    have hpr : writesOf (pr.1, pr.2) = writesOf pr := rfl
    obtain ⟨hr, hd⟩ := ih (WF_copyLayer hs pr.1 pr.2) h2
    constructor
    · rw [hr, refOf_copyLayer_notMem (hpr ▸ h1)]
    · rw [hd, dataOf_copyLayer_notMem hs (hpr ▸ h1)]

theorem WF_foldl_copyLayer :
    ∀ (pairs : List (Layer × Layer)) {s : Store}, s.WF →
    (pairs.foldl (fun st pr => copyLayer st pr.1 pr.2) s).WF := by
  intro pairs
  induction pairs with
  | nil => intro s hs; exact hs
  | cons pr rest ih =>
    intro s hs
    rw [List.foldl_cons]
    exact ih (WF_copyLayer hs pr.1 pr.2)

theorem paramDataLength_foldl_copyLayer :
    ∀ (pairs : List (Layer × Layer)) (s : Store),
    (pairs.foldl (fun st pr => copyLayer st pr.1 pr.2) s).paramData.length
      = s.paramData.length := by
  intro pairs
  induction pairs with
  | nil => intro s; rfl
  | cons pr rest ih =>
    intro s
    rw [List.foldl_cons, ih, paramDataLength_copyLayer]

theorem weight_mem_params {n : Net} {l : Layer} (h : l ∈ n.layers) : l.weight ∈ n.params :=
  List.mem_flatMap.mpr ⟨l, h, List.mem_cons_self _ _⟩

theorem bias_mem_params {n : Net} {l : Layer} {b : ParamId} (h : l ∈ n.layers)
    (hb : l.bias = some b) : b ∈ n.params :=
  List.mem_flatMap.mpr ⟨l, h, by rw [hb]; exact List.mem_cons_of_mem _ (List.mem_cons_self _ _)⟩

theorem writesOf_subset_params {n : Net} {pr : Layer × Layer} (h : pr.2 ∈ n.layers) :
    ∀ q ∈ writesOf pr, q ∈ n.params := by
  intro q hq
  rw [writesOf] at hq
  by_cases hck : pr.2.copyKind
  · simp only [hck, if_true] at hq
    rcases List.mem_cons.mp hq with he | he
    · exact he ▸ weight_mem_params h
    · cases hbt : pr.2.bias with
      | none => rw [hbt] at he; cases hbf : pr.1.bias <;> rw [hbf] at he <;> simp at he
      | some bt =>
        rw [hbt] at he
        cases hbf : pr.1.bias with
        | none => rw [hbf] at he; simp at he
        | some bf =>
          rw [hbf] at he
          have : q = bt := by simpa using he
          exact this ▸ bias_mem_params h hbt
  · simp [hck] at hq

theorem update_pi_def (L : Learner) (s : Store) :
    L.update_pi s =
      (L.net.layers.zip L.netPi.layers).foldl (fun st pr => copyLayer st pr.1 pr.2) s := rfl

theorem dataOf_update_pi_notPi {L : Learner} {s : Store} (hs : s.WF)
    {q : ParamId} (hq : q ∉ L.netPi.params) :
    (L.update_pi s).dataOf q = s.dataOf q := by
  rw [update_pi_def]
  refine (foldl_copyLayer_frame _ hs ?_).2
  intro pr hpr hmem
  exact hq (writesOf_subset_params (List.of_mem_zip hpr).2 q hmem)

theorem refOf_update_pi_notPi {L : Learner} {s : Store} (hs : s.WF)
    {q : ParamId} (hq : q ∉ L.netPi.params) :
    (L.update_pi s).refOf q = s.refOf q := by
  rw [update_pi_def]
  refine (foldl_copyLayer_frame _ hs ?_).1
  intro pr hpr hmem
  exact hq (writesOf_subset_params (List.of_mem_zip hpr).2 q hmem)

theorem WF_update_pi {L : Learner} {s : Store} (hs : s.WF) : (L.update_pi s).WF := by
  rw [update_pi_def]
  exact WF_foldl_copyLayer _ hs

theorem paramDataLength_update_pi (L : Learner) (s : Store) :
    (L.update_pi s).paramData.length = s.paramData.length := by
  rw [update_pi_def]
  exact paramDataLength_foldl_copyLayer _ s

theorem LearnerWF_invariant {L : Learner} {s s' : Store} (h : LearnerWF L s)
    (hwf : s'.WF) (hlen : s'.paramData.length = s.paramData.length) : LearnerWF L s' := by
  obtain ⟨h1, h2, h3, h4, h5, h6, h7, h8, h9⟩ := h
  refine ⟨hwf, fun p hp => ?_, fun p hp => ?_, h4, h5, h6, h7, h8, h9⟩
  · rw [hlen]; exact h2 p hp
  · rw [hlen]; exact h3 p hp

theorem LearnerWF_update_pi {L : Learner} {s : Store} (h : LearnerWF L s) :
    LearnerWF L (L.update_pi s) :=
  LearnerWF_invariant h (WF_update_pi h.1) (paramDataLength_update_pi L s)

theorem innerStep_eq (L : Learner) (g : List Val → List Val) (s : Store) :
    innerStep L g s =
      stepWith (fun v g0 => subVal v (smulVal learner_lr g0))
        (L.netPi.params.zip (g (L.netPi.params.map s.dataOf))) L.innerOptPids s := rfl

theorem WF_innerStep {L : Learner} {g : List Val → List Val} {s : Store} (hs : s.WF) :
    (innerStep L g s).WF := by
  rw [innerStep_eq]
  exact WF_stepWith _ _ _ hs

theorem paramDataLength_innerStep (L : Learner) (g : List Val → List Val) (s : Store) :
    (innerStep L g s).paramData.length = s.paramData.length := by
  rw [innerStep_eq, paramData_stepWith]

theorem LearnerWF_innerStep {L : Learner} {g : List Val → List Val} {s : Store}
    (h : LearnerWF L s) : LearnerWF L (innerStep L g s) :=
  LearnerWF_invariant h (WF_innerStep h.1) (paramDataLength_innerStep L g s)

theorem innerStep_dataOf_notPi {L : Learner} {g : List Val → List Val} {s : Store}
    (h : LearnerWF L s) {q : ParamId} (hq : q ∉ L.netPi.params) :
    (innerStep L g s).dataOf q = s.dataOf q := by
  rw [innerStep_eq]
  refine stepWith_dataOf_notMem _ _ h.1 ?_
  rw [h.2.2.2.2.2.2.1]
  exact hq

theorem innerStep_dataOf_mem {L : Learner} {g : List Val → List Val} {s : Store}
    (h : LearnerWF L s)
    (hg : (g (L.netPi.params.map s.dataOf)).length = L.netPi.params.length)
    {i : Nat} (hi : i < L.netPi.params.length) :
    (innerStep L g s).dataOf (L.netPi.params[i]) =
      subVal (s.dataOf (L.netPi.params[i]))
        (smulVal learner_lr ((g (L.netPi.params.map s.dataOf)).getD i [])) := by
  have hig : i < (g (L.netPi.params.map s.dataOf)).length := by omega
  rw [getD_eq_getElem_of_lt hig ([] : Val)]
  rw [innerStep_eq, h.2.2.2.2.2.2.1]
  rw [stepWith_dataOf_mem _ _ h.1 h.2.2.2.2.1 (List.getElem_mem hi)
    (h.2.2.1 _ (List.getElem_mem hi))]
  rw [find?_zip_eq _ _ h.2.2.2.2.1 i hi hig]

theorem innerStep_vals {L : Learner} {g : List Val → List Val} {s : Store}
    (h : LearnerWF L s)
    (hg : ∀ vs : List Val, (g vs).length = L.netPi.params.length) :
    L.netPi.params.map (innerStep L g s).dataOf =
      sgdStepSpec g (L.netPi.params.map s.dataOf) := by
  have hglen := hg (L.netPi.params.map s.dataOf)
  refine List.ext_getElem ?_ ?_
  · simp [sgdStepSpec, List.length_zip, hglen]
  · intro i h1 h2
    have hi : i < L.netPi.params.length := by simpa using h1
    have hz : i < ((L.netPi.params.map s.dataOf).zip
        (g (L.netPi.params.map s.dataOf))).length := by
      simp only [List.length_zip, List.length_map, hglen]
      omega
    rw [List.getElem_map]
    rw [innerStep_dataOf_mem h hglen hi]
    rw [getD_eq_getElem_of_lt (show i < (g (L.netPi.params.map s.dataOf)).length by
      omega) ([] : Val)]
    simp only [sgdStepSpec]
    rw [List.getElem_map, List.getElem_zip, List.getElem_map]

theorem innerLoop_vals {L : Learner} {g : List Val → List Val} :
    ∀ (n : Nat) {s : Store}, LearnerWF L s →
    (∀ vs : List Val, (g vs).length = L.netPi.params.length) →
    L.netPi.params.map ((List.range n).foldl (fun s0 _ => innerStep L g s0) s).dataOf
      = (sgdStepSpec g)^[n] (L.netPi.params.map s.dataOf) := by
  intro n
  induction n with
  | zero => intro s _ _; rfl
  | succ m ih =>
    intro s h hg
    rw [List.range_succ, List.foldl_append]
    have hwfm : LearnerWF L ((List.range m).foldl (fun s0 _ => innerStep L g s0) s) := by
      clear ih
      induction m with
      | zero => exact h
      | succ k ihk =>
        rw [List.range_succ, List.foldl_append]
        exact LearnerWF_innerStep ihk
    rw [List.foldl_cons, List.foldl_nil]
    rw [innerStep_vals hwfm hg, ih h hg, Function.iterate_succ_apply']

theorem LearnerWF_innerLoop {L : Learner} {g : List Val → List Val} :
    ∀ (n : Nat) {s : Store}, LearnerWF L s →
    LearnerWF L ((List.range n).foldl (fun s0 _ => innerStep L g s0) s) := by
  intro n
  induction n with
  | zero => intro s h; exact h
  | succ m ih =>
    intro s h
    rw [List.range_succ, List.foldl_append, List.foldl_cons, List.foldl_nil]
    exact LearnerWF_innerStep (ih h)

theorem innerLoop_dataOf_notPi {L : Learner} {g : List Val → List Val} :
    ∀ (n : Nat) {s : Store}, LearnerWF L s → ∀ {q : ParamId}, q ∉ L.netPi.params →
    ((List.range n).foldl (fun s0 _ => innerStep L g s0) s).dataOf q = s.dataOf q := by
  intro n
  induction n with
  | zero => intro s _ q _; rfl
  | succ m ih =>
    intro s h q hq
    rw [List.range_succ, List.foldl_append, List.foldl_cons, List.foldl_nil]
    rw [innerStep_dataOf_notPi (LearnerWF_innerLoop m h) hq, ih h hq]

theorem backwardWithHooks_none (hooks : List (ParamId × Nat)) (sumGrads : List Val) :
    ∀ (pgs : List (ParamId × Val)) (pg : ParamId × Val), pg ∈ pgs →
    hookOutput hooks sumGrads pg.1 pg.2 = none →
    backwardWithHooks hooks sumGrads pgs = none := by
  intro pgs
  induction pgs with
  | nil => intro pg hmem; exact absurd hmem (List.not_mem_nil pg)
  | cons a rest ih =>
    intro pg hmem hnone
    rw [backwardWithHooks]
    rcases List.mem_cons.mp hmem with h | h
    · rw [h] at hnone
      rw [hnone]
    · cases ha : hookOutput hooks sumGrads a.1 a.2 with
      | none => rfl
      | some v =>
        rw [ih pg h hnone]

theorem Learner.forward_store (L : Learner) (O : EpisodeOracles) (nu idx : Nat)
    (st : MetaState) :
    (L.forward O nu idx st).1.store =
      (List.range nu).foldl (fun s0 _ => innerStep L O.gradSupport s0)
        (L.update_pi st.store) := rfl

theorem Learner.forward_hooks (L : Learner) (O : EpisodeOracles) (nu idx : Nat)
    (st : MetaState) : (L.forward O nu idx st).1.hooks = st.hooks := rfl

theorem Learner.forward_gradBuf (L : Learner) (O : EpisodeOracles) (nu idx : Nat)
    (st : MetaState) : (L.forward O nu idx st).1.gradBuf = st.gradBuf := rfl

theorem Learner.forward_events (L : Learner) (O : EpisodeOracles) (nu idx : Nat)
    (st : MetaState) :
    (L.forward O nu idx st).1.events = st.events ++ [MEvent.episodeRun idx] := rfl

theorem LearnerWF_forward {L : Learner} {O : EpisodeOracles} {nu idx : Nat}
    {st : MetaState} (h : LearnerWF L st.store) :
    LearnerWF L (L.forward O nu idx st).1.store := by
  rw [Learner.forward_store]
  exact LearnerWF_innerLoop nu (LearnerWF_update_pi h)

theorem forward_dataOf_notPi {L : Learner} {O : EpisodeOracles} {nu idx : Nat}
    {st : MetaState} (h : LearnerWF L st.store) {q : ParamId}
    (hq : q ∉ L.netPi.params) :
    (L.forward O nu idx st).1.store.dataOf q = st.store.dataOf q := by
  rw [Learner.forward_store]
  rw [innerLoop_dataOf_notPi nu (LearnerWF_update_pi h) hq, dataOf_update_pi_notPi h.1 hq]

theorem metaLoop_hooks (L : Learner) (nu : Nat) :
    ∀ (eps : List EpisodeOracles) (i : Nat) (sum : Option (List Val))
      (losses rocs : List ℚ) (st : MetaState),
    (metaLoop L nu eps i sum losses rocs st).2.2.2.hooks = st.hooks := by
  intro eps
  induction eps with
  | nil => intro i sum losses rocs st; rfl
  | cons O rest ih =>
    intro i sum losses rocs st
    rw [metaLoop, ih, Learner.forward_hooks]

theorem metaLoop_gradBuf (L : Learner) (nu : Nat) :
    ∀ (eps : List EpisodeOracles) (i : Nat) (sum : Option (List Val))
      (losses rocs : List ℚ) (st : MetaState),
    (metaLoop L nu eps i sum losses rocs st).2.2.2.gradBuf = st.gradBuf := by
  intro eps
  induction eps with
  | nil => intro i sum losses rocs st; rfl
  | cons O rest ih =>
    intro i sum losses rocs st
    rw [metaLoop, ih, Learner.forward_gradBuf]

theorem metaLoop_events (L : Learner) (nu : Nat) :
    ∀ (eps : List EpisodeOracles) (i : Nat) (sum : Option (List Val))
      (losses rocs : List ℚ) (st : MetaState),
    (metaLoop L nu eps i sum losses rocs st).2.2.2.events =
      st.events ++ (List.range' i eps.length).map MEvent.episodeRun := by
  intro eps
  induction eps with
  | nil => intro i sum losses rocs st; simp [metaLoop]
  | cons O rest ih =>
    intro i sum losses rocs st
    rw [metaLoop, ih, Learner.forward_events]
    rw [List.length_cons, List.range'_succ, List.map_cons, List.append_assoc]
    rfl

theorem metaLoop_LearnerWF (L : Learner) (nu : Nat) :
    ∀ (eps : List EpisodeOracles) (i : Nat) (sum : Option (List Val))
      (losses rocs : List ℚ) (st : MetaState), LearnerWF L st.store →
    LearnerWF L (metaLoop L nu eps i sum losses rocs st).2.2.2.store := by
  intro eps
  induction eps with
  | nil => intro i sum losses rocs st h; exact h
  | cons O rest ih =>
    intro i sum losses rocs st h
    rw [metaLoop]
    exact ih _ _ _ _ _ (LearnerWF_forward h)

theorem metaLoop_dataOf_notPi (L : Learner) (nu : Nat) :
    ∀ (eps : List EpisodeOracles) (i : Nat) (sum : Option (List Val))
      (losses rocs : List ℚ) (st : MetaState), LearnerWF L st.store →
    ∀ {q : ParamId}, q ∉ L.netPi.params →
    (metaLoop L nu eps i sum losses rocs st).2.2.2.store.dataOf q
      = st.store.dataOf q := by
  intro eps
  induction eps with
  | nil => intro i sum losses rocs st h q hq; rfl
  | cons O rest ih =>
    intro i sum losses rocs st h q hq
    rw [metaLoop]
    rw [ih _ _ _ _ _ (LearnerWF_forward h) hq, forward_dataOf_notPi h hq]

theorem metaLoop_losses (L : Learner) (nu : Nat) :
    ∀ (eps : List EpisodeOracles) (i : Nat) (sum : Option (List Val))
      (losses rocs : List ℚ) (st : MetaState),
    (metaLoop L nu eps i sum losses rocs st).2.1 =
      losses ++ (episodeOuts L nu eps i st).map (fun x => x.1) := by
  intro eps
  induction eps with
  | nil => intro i sum losses rocs st; simp [metaLoop, episodeOuts]
  | cons O rest ih =>
    intro i sum losses rocs st
    rw [metaLoop, episodeOuts, ih, List.map_cons, List.append_assoc]
    rfl

theorem metaLoop_rocs (L : Learner) (nu : Nat) :
    ∀ (eps : List EpisodeOracles) (i : Nat) (sum : Option (List Val))
      (losses rocs : List ℚ) (st : MetaState),
    (metaLoop L nu eps i sum losses rocs st).2.2.1 =
      rocs ++ (episodeOuts L nu eps i st).map (fun x => x.2.roc_score) := by
  intro eps
  induction eps with
  | nil => intro i sum losses rocs st; simp [metaLoop, episodeOuts]
  | cons O rest ih =>
    intro i sum losses rocs st
    rw [metaLoop, episodeOuts, ih, List.map_cons, List.append_assoc]
    rfl

theorem metaLoop_state_eq_predLoop (L : Learner) (nu : Nat) :
    ∀ (eps : List EpisodeOracles) (i : Nat) (sum : Option (List Val))
      (losses rocs : List ℚ) (acc : PredAcc) (st : MetaState),
    (predLoop L nu eps i acc st).2 = (metaLoop L nu eps i sum losses rocs st).2.2.2 := by
  intro eps
  induction eps with
  | nil => intro i sum losses rocs acc st; rfl
  | cons O rest ih =>
    intro i sum losses rocs acc st
    rw [metaLoop, predLoop]
    exact ih _ _ _ _ _ _

theorem predLoop_lists (L : Learner) (nu : Nat) :
    ∀ (eps : List EpisodeOracles) (i : Nat) (acc : PredAcc) (st : MetaState),
    (predLoop L nu eps i acc st).1 =
      { accs := acc.accs ++ (episodeOuts L nu eps i st).map (fun x => x.2.acc),
        losses := acc.losses ++ (episodeOuts L nu eps i st).map (fun x => x.1),
        pres := acc.pres ++ (episodeOuts L nu eps i st).map (fun x => x.2.pre_score),
        recalls := acc.recalls ++ (episodeOuts L nu eps i st).map (fun x => x.2.recall_score),
        mccs := acc.mccs ++ (episodeOuts L nu eps i st).map (fun x => x.2.mcc_score),
        rocs := acc.rocs ++ (episodeOuts L nu eps i st).map (fun x => x.2.roc_score),
        f1s := acc.f1s ++ (episodeOuts L nu eps i st).map (fun x => x.2.f1_score) } := by
  intro eps
  induction eps with
  | nil => intro i acc st; simp [predLoop, episodeOuts]
  | cons O rest ih =>
    intro i acc st
    rw [predLoop, episodeOuts, ih]
    simp only [List.map_cons]
    congr 1 <;> rw [List.append_assoc] <;> rfl

theorem Learner.forward_grads (L : Learner) (O : EpisodeOracles) (nu idx : Nat)
    (st : MetaState) :
    (L.forward O nu idx st).2.2.1 =
      O.gradQuery (L.netPi.params.map (L.forward O nu idx st).1.store.dataOf) := rfl

theorem metaLoop_sum_length (L : Learner) (nu : Nat) (P : Nat) :
    ∀ (eps : List EpisodeOracles),
    (∀ O ∈ eps, ∀ vs : List Val, (O.gradQuery vs).length = P) →
    ∀ (i : Nat) (sum : Option (List Val)) (losses rocs : List ℚ) (st : MetaState),
    (sum = none ∨ ∃ sg0, sum = some sg0 ∧ sg0.length = P) →
    ((metaLoop L nu eps i sum losses rocs st).1 = none ∧ sum = none ∧ eps = []) ∨
    ∃ sg, (metaLoop L nu eps i sum losses rocs st).1 = some sg ∧ sg.length = P := by
  intro eps
  induction eps with
  | nil =>
    intro _ i sum losses rocs st hsum
    rcases hsum with h | ⟨sg0, h, hlen⟩
    · exact Or.inl ⟨h ▸ rfl, h, rfl⟩
    · exact Or.inr ⟨sg0, h ▸ rfl, hlen⟩
  | cons O rest ih =>
    intro hg i sum losses rocs st hsum
    rw [metaLoop]
    have hgO : ((L.forward O nu i st).2.2.1).length = P := by
      rw [Learner.forward_grads]
      exact hg O (List.mem_cons_self O rest) _
    have hnext : ∃ sg0, accumStep sum (L.forward O nu i st).2.2.1 = some sg0 ∧
        sg0.length = P := by
      rcases hsum with h | ⟨sg0, h, hlen⟩
      · subst h
        exact ⟨_, rfl, hgO⟩
      · subst h
        refine ⟨_, rfl, ?_⟩
        simp only [accumStep, List.length_map, List.length_zip, hlen, hgO]
        exact Nat.min_self P
    obtain ⟨sg0', hacc, hlen'⟩ := hnext
    have := ih (fun O2 h2 vs => hg O2 (List.mem_cons_of_mem O h2) vs)
      (i + 1) _ (losses ++ [(L.forward O nu i st).2.1])
      (rocs ++ [(L.forward O nu i st).2.2.2.roc_score]) (L.forward O nu i st).1
      (Or.inr ⟨sg0', hacc, hlen'⟩)
    rcases this with ⟨h1, h2, h3⟩ | h
    · rw [hacc] at h2
      exact absurd h2 (by simp)
    · exact Or.inr h

theorem nodup_indexOf_getElem {l : List ParamId} (h : l.Nodup) {j : Nat}
    (hj : j < l.length) : List.indexOf l[j] l = j := by
  have hmem : l[j] ∈ l := List.getElem_mem hj
  have hlt : List.indexOf l[j] l < l.length := List.indexOf_lt_length.mpr hmem
  have he : l[List.indexOf l[j] l] = l[j] := List.getElem_indexOf hlt
  exact (List.Nodup.getElem_inj_iff h).mp he

theorem hookOutput_hooksFor {M : MetaLearner} (hnd : M.learner.parameters.Nodup)
    (sumGrads : List Val) {j : Nat} (hj : j < M.learner.parameters.length) (g : Val) :
    hookOutput (hooksFor M) sumGrads (M.learner.parameters[j]) g
      = sumGrads.get? j := by
  rw [hookOutput, hooksFor, List.enum_eq_enumFrom, find?_hooksFrom_eq _ 0 hnd j hj]
  simp

theorem backwardWithHooks_hooksFor {M : MetaLearner}
    (hnd : M.learner.parameters.Nodup) {dummyGrads sumGrads : List Val}
    (hd : dummyGrads.length = M.learner.parameters.length)
    (hs : M.learner.parameters.length ≤ sumGrads.length) :
    backwardWithHooks (hooksFor M) sumGrads (M.learner.parameters.zip dummyGrads)
      = some (M.learner.parameters.zip sumGrads) := by
  rw [backwardWithHooks_map (hooksFor M) sumGrads
    (fun pg => sumGrads.getD (List.indexOf pg.1 M.learner.parameters) [])
    (M.learner.parameters.zip dummyGrads) ?_]
  · congr 1
    refine List.ext_getElem ?_ ?_
    · simp only [List.length_map, List.length_zip, hd]
      omega
    · intro j h1 h2
      have hj : j < M.learner.parameters.length := by
        simp only [List.length_map, List.length_zip, hd] at h1
        omega
      have hjs : j < sumGrads.length := by omega
      rw [List.getElem_map, List.getElem_zip, List.getElem_zip]
      refine Prod.ext rfl ?_
      show sumGrads.getD (List.indexOf _ M.learner.parameters) [] = _
      rw [nodup_indexOf_getElem hnd hj, List.getD_eq_getElem?_getD,
        List.getElem?_eq_getElem hjs]
      rfl
  · intro pg hpg
    obtain ⟨j, hj, he⟩ := List.mem_iff_getElem.mp hpg
    have hjp : j < M.learner.parameters.length := by
      simp only [List.length_zip, hd] at hj
      omega
    have hjs : j < sumGrads.length := by omega
    rw [← he, List.getElem_zip]
    show hookOutput (hooksFor M) sumGrads (M.learner.parameters[j]) dummyGrads[j]
      = some (sumGrads.getD
          (List.indexOf (M.learner.parameters[j]) M.learner.parameters) [])
    rw [hookOutput_hooksFor hnd sumGrads hjp, nodup_indexOf_getElem hnd hjp,
      List.get?_eq_getElem?, List.getElem?_eq_getElem hjs, List.getD_eq_getElem?_getD,
      List.getElem?_eq_getElem hjs]
    rfl

theorem backwardWithHooks_hooksFor_short {M : MetaLearner}
    (hnd : M.learner.parameters.Nodup) {dummyGrads sumGrads : List Val}
    (hd : dummyGrads.length = M.learner.parameters.length)
    (hs : sumGrads.length < M.learner.parameters.length) :
    backwardWithHooks (hooksFor M) sumGrads (M.learner.parameters.zip dummyGrads)
      = none := by
  have hk : sumGrads.length < (M.learner.parameters.zip dummyGrads).length := by
    simp only [List.length_zip, hd]
    omega
  refine backwardWithHooks_none (hooksFor M) sumGrads _
    ((M.learner.parameters.zip dummyGrads)[sumGrads.length]) (List.getElem_mem hk) ?_
  rw [List.getElem_zip]
  show hookOutput (hooksFor M) sumGrads (M.learner.parameters[sumGrads.length]) _ = _
  rw [hookOutput_hooksFor hnd sumGrads hs, List.get?_eq_getElem?, List.getElem?_eq_none le_rfl]

theorem write_grads_ok {M : MetaLearner} (stepRule : Val → Val → Val)
    {dummyGrads sumGrads : List Val} {st : MetaState}
    (hnd : M.learner.parameters.Nodup) (hhk : st.hooks = [])
    (hd : dummyGrads.length = M.learner.parameters.length)
    (hs : M.learner.parameters.length ≤ sumGrads.length) :
    M.write_grads stepRule dummyGrads sumGrads st =
      Except.ok ⟨stepWith stepRule (M.learner.parameters.zip sumGrads)
          M.metaOptPids st.store,
        st.hooks, M.learner.parameters.zip sumGrads,
        st.events ++ [MEvent.optStep M.metaOptPids]⟩ := by
  unfold MetaLearner.write_grads
  simp only [hhk, List.nil_append]
  rw [backwardWithHooks_hooksFor hnd hd hs]

theorem write_grads_err {M : MetaLearner} (stepRule : Val → Val → Val)
    {dummyGrads sumGrads : List Val} {st : MetaState}
    (hnd : M.learner.parameters.Nodup) (hhk : st.hooks = [])
    (hd : dummyGrads.length = M.learner.parameters.length)
    (hs : sumGrads.length < M.learner.parameters.length) :
    M.write_grads stepRule dummyGrads sumGrads st =
      Except.error ⟨st.store, hooksFor M, [], st.events⟩ := by
  unfold MetaLearner.write_grads
  simp only [hhk, List.nil_append]
  rw [backwardWithHooks_hooksFor_short hnd hd hs]

theorem stepWith_zip_dataOf (stepRule : Val → Val → Val) {pids : List ParamId}
    {gs : List Val} {s : Store} (hwf : s.WF) (hnd : pids.Nodup)
    (hin : ∀ p ∈ pids, p < s.paramData.length)
    {i : Nat} (hi : i < pids.length) (hig : i < gs.length) :
    (stepWith stepRule (pids.zip gs) pids s).dataOf pids[i]
      = stepRule (s.dataOf pids[i]) gs[i] := by
  rw [stepWith_dataOf_mem _ _ hwf hnd (List.getElem_mem hi) (hin _ (List.getElem_mem hi)),
    find?_zip_eq _ _ hnd i hi hig]

theorem numParams_cons (sp : LayerSpec) (rest : List LayerSpec) :
    numParams (sp :: rest)
      = (1 + if sp.binit.isSome then 1 else 0) + numParams rest := by
  rw [numParams, List.map_cons, List.sum_cons, numParams]

theorem numParams_cons_none {sp : LayerSpec} (hb : sp.binit = none)
    (rest : List LayerSpec) : numParams (sp :: rest) = numParams rest + 1 := by
  rw [numParams_cons, hb]
  simp [Nat.add_comm]

theorem numParams_cons_some {sp : LayerSpec} {bv : Val} (hb : sp.binit = some bv)
    (rest : List LayerSpec) : numParams (sp :: rest) = numParams rest + 2 := by
  rw [numParams_cons, hb]
  simp [Nat.add_comm]

theorem mkLayers_paramData :
    ∀ (sps : List LayerSpec) (s : Store),
    (mkLayers s sps).1.paramData
      = s.paramData ++ List.range' s.heap.length (numParams sps) ∧
    (mkLayers s sps).1.heap.length = s.heap.length + numParams sps ∧
    (mkLayers s sps).1.paramData.length = s.paramData.length + numParams sps := by
  intro sps
  induction sps with
  | nil =>
    intro s
    simp [mkLayers, numParams]
  | cons sp rest ih =>
    intro s
    cases hb : sp.binit with
    | none =>
      have hnum := numParams_cons_none hb rest
      have hstep : mkLayers s (sp :: rest)
          = (let r2 := mkLayers ⟨s.paramData ++ [s.heap.length],
                s.heap ++ [sp.winit]⟩ rest
             (r2.1, ⟨sp.kind, s.paramData.length, none⟩ :: r2.2)) := by
        rw [mkLayers, mkLayer, allocTensor, hb]
      obtain ⟨ihp, ihh, ihl⟩ := ih ⟨s.paramData ++ [s.heap.length], s.heap ++ [sp.winit]⟩
      rw [hstep]
      refine ⟨?_, ?_, ?_⟩
      · rw [ihp]
        show s.paramData ++ [s.heap.length]
            ++ List.range' (s.heap ++ [sp.winit]).length (numParams rest) = _
        rw [List.append_assoc, hnum, List.range'_succ]
        simp
      · rw [ihh]
        show (s.heap ++ [sp.winit]).length + numParams rest = _
        simp only [List.length_append, List.length_cons, List.length_nil, hnum]
        omega
      · rw [ihl]
        show (s.paramData ++ [s.heap.length]).length + numParams rest = _
        simp only [List.length_append, List.length_cons, List.length_nil, hnum]
        omega
    | some bv =>
      have hnum := numParams_cons_some hb rest
      have hstep : mkLayers s (sp :: rest)
          = (let r2 := mkLayers ⟨(s.paramData ++ [s.heap.length]) ++ [s.heap.length + 1],
                (s.heap ++ [sp.winit]) ++ [bv]⟩ rest
             (r2.1, ⟨sp.kind, s.paramData.length,
                some (s.paramData.length + 1)⟩ :: r2.2)) := by
        rw [mkLayers, mkLayer, allocTensor, hb]
        simp [allocTensor]
      obtain ⟨ihp, ihh, ihl⟩ := ih ⟨(s.paramData ++ [s.heap.length]) ++ [s.heap.length + 1],
        (s.heap ++ [sp.winit]) ++ [bv]⟩
      rw [hstep]
      refine ⟨?_, ?_, ?_⟩
      · rw [ihp]
        show s.paramData ++ [s.heap.length] ++ [s.heap.length + 1]
            ++ List.range' ((s.heap ++ [sp.winit]) ++ [bv]).length (numParams rest) = _
        rw [List.append_assoc, List.append_assoc, hnum, List.range'_succ, List.range'_succ]
        simp only [List.length_append, List.length_cons, List.length_nil]
        simp [List.range'_succ]
      · rw [ihh]
        show ((s.heap ++ [sp.winit]) ++ [bv]).length + numParams rest = _
        simp only [List.length_append, List.length_cons, List.length_nil, hnum]
        omega
      · rw [ihl]
        show ((s.paramData ++ [s.heap.length]) ++ [s.heap.length + 1]).length
            + numParams rest = _
        simp only [List.length_append, List.length_cons, List.length_nil, hnum]
        omega

theorem mkLayers_params :
    ∀ (sps : List LayerSpec) (s : Store),
    ((mkLayers s sps).2.flatMap fun l => l.weight :: l.bias.toList)
      = List.range' s.paramData.length (numParams sps) := by
  intro sps
  induction sps with
  | nil => intro s; simp [mkLayers, numParams]
  | cons sp rest ih =>
    intro s
    cases hb : sp.binit with
    | none =>
      have hnum := numParams_cons_none hb rest
      have hstep : mkLayers s (sp :: rest)
          = (let r2 := mkLayers ⟨s.paramData ++ [s.heap.length],
                s.heap ++ [sp.winit]⟩ rest
             (r2.1, ⟨sp.kind, s.paramData.length, none⟩ :: r2.2)) := by
        rw [mkLayers, mkLayer, allocTensor, hb]
      rw [hstep]
      show (⟨sp.kind, s.paramData.length, none⟩ :: _ : List Layer).flatMap _ = _
      rw [List.flatMap_cons, ih]
      rw [hnum, List.range'_succ]
      simp

    | some bv =>
      have hnum := numParams_cons_some hb rest
      have hstep : mkLayers s (sp :: rest)
          = (let r2 := mkLayers ⟨(s.paramData ++ [s.heap.length]) ++ [s.heap.length + 1],
                (s.heap ++ [sp.winit]) ++ [bv]⟩ rest
             (r2.1, ⟨sp.kind, s.paramData.length,
                some (s.paramData.length + 1)⟩ :: r2.2)) := by
        rw [mkLayers, mkLayer, allocTensor, hb]
        simp [allocTensor]
      rw [hstep]
      show (⟨sp.kind, s.paramData.length, some (s.paramData.length + 1)⟩ :: _
        : List Layer).flatMap _ = _
      rw [List.flatMap_cons, ih]
      simp only [List.length_append, List.length_cons, List.length_nil]
      rw [hnum, List.range'_succ, List.range'_succ]
      simp [List.range'_succ]

theorem mkLayers_length : ∀ (sps : List LayerSpec) (s : Store),
    (mkLayers s sps).2.length = sps.length := by
  intro sps
  induction sps with
  | nil => intro s; rfl
  | cons sp rest ih =>
    intro s
    rw [mkLayers]
    show ((mkLayer s sp).2 :: (mkLayers (mkLayer s sp).1 rest).2).length = _
    rw [List.length_cons, ih, List.length_cons]

theorem mkLayers_getD : ∀ (sps : List LayerSpec) (s : Store) (i : Nat), i < sps.length →
    ((mkLayers s sps).2.getD i default).kind = (sps.getD i default).kind ∧
    ((mkLayers s sps).2.getD i default).bias.isSome
      = (sps.getD i default).binit.isSome := by
  intro sps
  induction sps with
  | nil => intro s i hi; exact absurd hi (by simp)
  | cons sp rest ih =>
    intro s i hi
    cases i with
    | zero =>
      constructor
      · show ((mkLayer s sp).2).kind = sp.kind
        cases hb : sp.binit with
        | none => rw [mkLayer, hb]
        | some bv => rw [mkLayer, hb]
      · show ((mkLayer s sp).2).bias.isSome = sp.binit.isSome
        cases hb : sp.binit with
        | none => rw [mkLayer, hb]; rfl
        | some bv => rw [mkLayer, hb]; rfl
    | succ j =>
      have hj : j < rest.length := by simpa using hi
      exact ih (mkLayer s sp).1 j hj

theorem mkLearner_net_params (sps1 sps2 : List LayerSpec) :
    (mkLearner sps1 sps2).2.net.params = List.range' 0 (numParams sps1) := by
  show ((mkLayers ⟨[], []⟩ sps1).2.flatMap fun l => l.weight :: l.bias.toList) = _
  rw [mkLayers_params]
  rfl

theorem mkLearner_netPi_params (sps1 sps2 : List LayerSpec) :
    (mkLearner sps1 sps2).2.netPi.params
      = List.range' (numParams sps1) (numParams sps2) := by
  show ((mkLayers (mkLayers ⟨[], []⟩ sps1).1 sps2).2.flatMap
      fun l => l.weight :: l.bias.toList) = _
  rw [mkLayers_params]
  obtain ⟨_, _, hl⟩ := mkLayers_paramData sps1 ⟨[], []⟩
  rw [hl]
  simp

theorem mkLearner_paramData (sps1 sps2 : List LayerSpec) :
    (mkLearner sps1 sps2).1.paramData
      = List.range' 0 (numParams sps1 + numParams sps2) := by
  show (mkLayers (mkLayers ⟨[], []⟩ sps1).1 sps2).1.paramData = _
  obtain ⟨hp1, hh1, _⟩ := mkLayers_paramData sps1 ⟨[], []⟩
  obtain ⟨hp2, _, _⟩ := mkLayers_paramData sps2 (mkLayers ⟨[], []⟩ sps1).1
  rw [hp2, hp1, hh1]
  show ([] : List Ref) ++ List.range' 0 (numParams sps1)
      ++ List.range' (0 + numParams sps1) (numParams sps2) = _
  rw [List.nil_append]
  have := List.range'_append 0 (numParams sps1) (numParams sps2) 1
  simp only [Nat.one_mul] at this
  rw [this]
  congr 1
  omega

theorem mkLearner_heapLength (sps1 sps2 : List LayerSpec) :
    (mkLearner sps1 sps2).1.heap.length = numParams sps1 + numParams sps2 := by
  show (mkLayers (mkLayers ⟨[], []⟩ sps1).1 sps2).1.heap.length = _
  obtain ⟨_, hh1, _⟩ := mkLayers_paramData sps1 ⟨[], []⟩
  obtain ⟨_, hh2, _⟩ := mkLayers_paramData sps2 (mkLayers ⟨[], []⟩ sps1).1
  rw [hh2, hh1]
  show 0 + numParams sps1 + numParams sps2 = _
  omega

theorem mkLearner_WF {sps1 sps2 : List LayerSpec} (hal : specAligned sps1 sps2) :
    LearnerWF (mkLearner sps1 sps2).2 (mkLearner sps1 sps2).1 := by
  have hlen1 := mkLayers_length sps1 (⟨[], []⟩ : Store)
  have hlen2 := mkLayers_length sps2 (mkNet ⟨[], []⟩ sps1).1
  have hpd := mkLearner_paramData sps1 sps2
  have hhl := mkLearner_heapLength sps1 sps2
  have hpdl : (mkLearner sps1 sps2).1.paramData.length
      = numParams sps1 + numParams sps2 := by
    rw [hpd, List.length_range']
  have hnp := mkLearner_net_params sps1 sps2
  have hpp := mkLearner_netPi_params sps1 sps2
  refine ⟨⟨?_, ?_⟩, ?_, ?_, ?_, ?_, ?_, ?_, ?_, ?_⟩
  · intro r hr
    rw [hpd] at hr
    rw [hhl]
    obtain ⟨i, hi, he⟩ := List.mem_range'.mp hr
    subst he
    simpa using hi
  · rw [hpd]
    exact List.nodup_range' _ _
  · intro p hp
    rw [hnp] at hp
    rw [hpdl]
    obtain ⟨i, hi, he⟩ := List.mem_range'.mp hp
    subst he
    simp only [Nat.zero_add, Nat.one_mul]
    exact Nat.lt_of_lt_of_le hi (Nat.le_add_right _ _)
  · intro p hp
    rw [hpp] at hp
    rw [hpdl]
    obtain ⟨i, hi, he⟩ := List.mem_range'.mp hp
    subst he
    simp only [Nat.one_mul]
    exact Nat.add_lt_add_left hi _
  · rw [hnp]
    exact List.nodup_range' _ _
  · rw [hpp]
    exact List.nodup_range' _ _
  · intro p hp hp2
    rw [hnp] at hp
    rw [hpp] at hp2
    obtain ⟨i, hi, he⟩ := List.mem_range'.mp hp
    obtain ⟨j, hj, he2⟩ := List.mem_range'.mp hp2
    subst he
    simp only [Nat.zero_add, Nat.one_mul] at he2
    omega
  · rfl
  · show (mkLayers ⟨[], []⟩ sps1).2.length = (mkLayers _ sps2).2.length
    rw [hlen1, hlen2]
    exact hal.1
  · intro i hi
    have hi1 : i < sps1.length := by
      have : i < (mkLearner sps1 sps2).2.net.layers.length := List.mem_range.mp hi
      rw [show (mkLearner sps1 sps2).2.net.layers = (mkLayers ⟨[], []⟩ sps1).2 from rfl,
        hlen1] at this
      exact this
    have hi2 : i < sps2.length := by
      rw [← hal.1]
      exact hi1
    obtain ⟨hk1, hb1⟩ := mkLayers_getD sps1 ⟨[], []⟩ i hi1
    obtain ⟨hk2, hb2⟩ := mkLayers_getD sps2 (mkNet ⟨[], []⟩ sps1).1 i hi2
    obtain ⟨hka, hba⟩ := hal.2 i (List.mem_range.mpr hi1)
    constructor
    · show ((mkLayers ⟨[], []⟩ sps1).2.getD i default).kind
        = ((mkLayers _ sps2).2.getD i default).kind
      rw [hk1, hk2, hka]
    · show ((mkLayers ⟨[], []⟩ sps1).2.getD i default).bias.isSome
        ↔ ((mkLayers _ sps2).2.getD i default).bias.isSome
      rw [hb1, hb2]
      exact hba

theorem length_episodeOuts (L : Learner) (nu : Nat) :
    ∀ (eps : List EpisodeOracles) (i : Nat) (st : MetaState),
    (episodeOuts L nu eps i st).length = eps.length := by
  intro eps
  induction eps with
  | nil => intro i st; rfl
  | cons O rest ih =>
    intro i st
    rw [episodeOuts, List.length_cons, List.length_cons, ih]

theorem getD_zip_addVal {a g : List Val} {p : Nat} (hp : p < a.length)
    (hg : p < g.length) :
    ((a.zip g).map fun pr => addVal pr.1 pr.2).getD p []
      = addVal (a.getD p []) (g.getD p []) := by
  have hz : p < (a.zip g).length := by
    simp only [List.length_zip]
    omega
  rw [List.getD_eq_getElem?_getD, List.getElem?_map, List.getElem?_eq_getElem hz,
    List.getElem_zip, List.getD_eq_getElem?_getD, List.getD_eq_getElem?_getD,
    List.getElem?_eq_getElem hp, List.getElem?_eq_getElem hg]
  rfl

theorem accumGrads_aux (P : Nat) (shape : Nat → Nat) :
    ∀ (rest : List (List Val)) (acc : List Val),
    acc.length = P → (∀ p < P, (acc.getD p []).length = shape p) →
    (∀ g ∈ rest, g.length = P ∧ ∀ p < P, (g.getD p []).length = shape p) →
    ∃ r, rest.foldl accumStep (some acc) = some r ∧ r.length = P ∧
      (∀ p < P, (r.getD p []).length = shape p) ∧
      ∀ p < P, ∀ t < shape p, (r.getD p []).getD t 0
        = (acc.getD p []).getD t 0
          + ∑ i ∈ Finset.range rest.length, ((rest.getD i []).getD p []).getD t 0 := by
  intro rest
  induction rest with
  | nil =>
    intro acc hal hap _
    exact ⟨acc, rfl, hal, hap, fun p hp t ht => by simp⟩
  | cons g rest2 ih =>
    intro acc hal hap hg
    obtain ⟨hgl, hgp⟩ := hg g (List.mem_cons_self g rest2)
    have hstep : accumStep (some acc) g = some ((acc.zip g).map fun pr => addVal pr.1 pr.2) :=
      rfl
    have hal2 : ((acc.zip g).map fun pr => addVal pr.1 pr.2).length = P := by
      simp only [List.length_map, List.length_zip, hal, hgl]
      exact Nat.min_self P
    have hap2 : ∀ p < P, (((acc.zip g).map fun pr => addVal pr.1 pr.2).getD p []).length
        = shape p := by
      intro p hp
      rw [getD_zip_addVal (by omega) (by omega), length_addVal, hap p hp, hgp p hp]
      exact Nat.min_self _
    obtain ⟨r, hr, hrl, hrp, hrv⟩ := ih ((acc.zip g).map fun pr => addVal pr.1 pr.2)
      hal2 hap2 (fun g2 h2 => hg g2 (List.mem_cons_of_mem g h2))
    refine ⟨r, ?_, hrl, hrp, ?_⟩
    · rw [List.foldl_cons, hstep]
      exact hr
    · intro p hp t ht
      rw [hrv p hp t ht, getD_zip_addVal (by omega) (by omega),
        getD_addVal (by rw [hap p hp]; omega) (by rw [hgp p hp]; omega)]
      rw [List.length_cons, Finset.sum_range_succ']
      have hco : ∀ i : Nat, ((((g :: rest2).getD (i + 1) []).getD p []).getD t 0 : ℚ)
          = ((rest2.getD i []).getD p []).getD t 0 := fun i => rfl
      simp only [hco]
      have hc0 : ((((g :: rest2).getD 0 []).getD p []).getD t 0 : ℚ)
          = (g.getD p []).getD t 0 := rfl
      rw [hc0]
      ring

theorem writesOf_subset_layer {pr : Layer × Layer} :
    ∀ q ∈ writesOf pr, q ∈ pr.2.weight :: pr.2.bias.toList := by
  intro q hq
  rw [writesOf] at hq
  by_cases hck : pr.2.copyKind
  · simp only [hck, if_true] at hq
    rcases List.mem_cons.mp hq with he | he
    · exact he ▸ List.mem_cons_self _ _
    · cases hbt : pr.2.bias with
      | none => rw [hbt] at he; cases hbf : pr.1.bias <;> rw [hbf] at he <;> simp at he
      | some bt =>
        rw [hbt] at he
        cases hbf : pr.1.bias with
        | none => rw [hbf] at he; simp at he
        | some bf =>
          rw [hbf] at he
          have : q = bt := by simpa using he
          subst this
          exact List.mem_cons_of_mem _ (by simp)
  · simp [hck] at hq

theorem netPi_layer_pid_disjoint {L : Learner} (hnd : L.netPi.params.Nodup)
    {i j : Nat} (hi : i < L.netPi.layers.length) (hj : j < L.netPi.layers.length)
    (hne : j ≠ i) {q : ParamId}
    (hqi : q ∈ (L.netPi.layers[i]).weight :: (L.netPi.layers[i]).bias.toList) :
    q ∉ (L.netPi.layers[j]).weight :: (L.netPi.layers[j]).bias.toList := by
  rw [Net.params, List.nodup_flatMap] at hnd
  obtain ⟨hall, hpw⟩ := hnd
  rw [List.pairwise_iff_getElem] at hpw
  intro hqj
  rcases Nat.lt_or_ge j i with h | h
  · exact hpw j i hj hi h hqj hqi
  · have h2 : i < j := Nat.lt_of_le_of_ne h (fun he => hne he.symm)
    exact hpw i j hi hj h2 hqi hqj

theorem netPi_layer_nodup {L : Learner} (hnd : L.netPi.params.Nodup)
    {i : Nat} (hi : i < L.netPi.layers.length) :
    ((L.netPi.layers[i]).weight :: (L.netPi.layers[i]).bias.toList).Nodup := by
  rw [Net.params, List.nodup_flatMap] at hnd
  exact hnd.1 _ (List.getElem_mem hi)

theorem update_pi_copies {L : Learner} {s : Store} (hwf : LearnerWF L s)
    {i : Nat} (hi : i < L.netPi.layers.length)
    (hck : (L.netPi.layers.getD i default).copyKind = true) :
    (L.update_pi s).dataOf (L.netPi.layers.getD i default).weight
      = s.dataOf (L.net.layers.getD i default).weight ∧
    ∀ bt ∈ (L.netPi.layers.getD i default).bias,
    ∀ bf ∈ (L.net.layers.getD i default).bias,
      (L.update_pi s).dataOf bt = s.dataOf bf := by
  obtain ⟨h1, h2, h3, h4, h5, h6, h7, h8, h9⟩ := hwf
  have hin : i < L.net.layers.length := by omega
  rw [getD_eq_getElem_of_lt hi default] at hck ⊢
  rw [getD_eq_getElem_of_lt hin default]
  have hip : i < (L.net.layers.zip L.netPi.layers).length := by
    rw [List.length_zip]
    omega
  have hpair : (L.net.layers.zip L.netPi.layers)[i]
      = (L.net.layers[i], L.netPi.layers[i]) := List.getElem_zip
  have hsplit : L.net.layers.zip L.netPi.layers
      = (L.net.layers.zip L.netPi.layers).take i
        ++ (L.net.layers[i], L.netPi.layers[i])
          :: (L.net.layers.zip L.netPi.layers).drop (i + 1) := by
    conv_lhs => rw [← List.take_append_drop i (L.net.layers.zip L.netPi.layers)]
    rw [List.drop_eq_getElem_cons hip, hpair]
  -- facts about which parameter objects each phase may touch
  have hmemw : (L.netPi.layers[i]).weight
      ∈ (L.netPi.layers[i]).weight :: (L.netPi.layers[i]).bias.toList :=
    List.mem_cons_self _ _
  have htake : ∀ {q : ParamId},
      q ∈ (L.netPi.layers[i]).weight :: (L.netPi.layers[i]).bias.toList →
      ∀ pr ∈ (L.net.layers.zip L.netPi.layers).take i, q ∉ writesOf pr := by
    intro q hq pr hpr hmem
    obtain ⟨j, hjm, he⟩ := List.mem_take_iff_getElem.mp hpr
    have hji : j < i := by omega
    have hjp : j < (L.net.layers.zip L.netPi.layers).length := by omega
    have hjpi : j < L.netPi.layers.length := by
      rw [List.length_zip] at hjp
      omega
    have hpr2 : pr.2 = L.netPi.layers[j] := by
      rw [← he, List.getElem_zip]
    have hsub := writesOf_subset_layer q hmem
    rw [hpr2] at hsub
    exact netPi_layer_pid_disjoint h5 hi hjpi (by omega) hq hsub
  have hdrop : ∀ {q : ParamId},
      q ∈ (L.netPi.layers[i]).weight :: (L.netPi.layers[i]).bias.toList →
      ∀ pr ∈ (L.net.layers.zip L.netPi.layers).drop (i + 1), q ∉ writesOf pr := by
    intro q hq pr hpr hmem
    obtain ⟨j, hjm, he⟩ := List.mem_iff_getElem.mp hpr
    have hjp : i + 1 + j < (L.net.layers.zip L.netPi.layers).length := by
      rw [List.length_drop] at hjm
      omega
    have hjpi : i + 1 + j < L.netPi.layers.length := by
      rw [List.length_zip] at hjp
      omega
    have hpr2 : pr.2 = L.netPi.layers[i + 1 + j] := by
      rw [← he, List.getElem_drop, List.getElem_zip]
    have hsub := writesOf_subset_layer q hmem
    rw [hpr2] at hsub
    exact netPi_layer_pid_disjoint h5 hi hjpi (by omega) hq hsub
  have hbase : ∀ {q : ParamId}, q ∈ L.net.params →
      ∀ pr ∈ (L.net.layers.zip L.netPi.layers).take i, q ∉ writesOf pr := by
    intro q hq pr hpr hmem
    have hpr2 : pr.2 ∈ L.netPi.layers := (List.of_mem_zip (List.mem_of_mem_take hpr)).2
    exact h6 q hq (writesOf_subset_params hpr2 q hmem)
  -- the store after the prefix of the copy loop
  have hs1wf : ((L.net.layers.zip L.netPi.layers).take i
      |>.foldl (fun st pr => copyLayer st pr.1 pr.2) s).WF :=
    WF_foldl_copyLayer _ h1
  have hs1len : ((L.net.layers.zip L.netPi.layers).take i
      |>.foldl (fun st pr => copyLayer st pr.1 pr.2) s).paramData.length
      = s.paramData.length := paramDataLength_foldl_copyLayer _ s
  have hnodupl := netPi_layer_nodup h5 hi
  have hwlt : (L.netPi.layers[i]).weight < s.paramData.length :=
    h3 _ (weight_mem_params (List.getElem_mem hi))
  have hfr1bw := (foldl_copyLayer_frame ((L.net.layers.zip L.netPi.layers).take i)
    h1 (hbase (weight_mem_params (List.getElem_mem hin)))).2
  have hwb : ∀ bt ∈ (L.netPi.layers[i]).bias, bt ≠ (L.netPi.layers[i]).weight := by
    intro bt hbt he
    have hno := List.nodup_cons.mp hnodupl
    exact hno.1 (he ▸ Option.mem_toList.mpr hbt)
  rw [update_pi_def, hsplit, List.foldl_append, List.foldl_cons]
  constructor
  · -- the weight tensor
    have hw2 := @dataOf_copyLayer_weight _ hs1wf (L.net.layers[i]) (L.netPi.layers[i])
      hck (by rw [hs1len]; exact hwlt) hwb
    rw [(foldl_copyLayer_frame _ (WF_copyLayer hs1wf _ _) (hdrop hmemw)).2, hw2,
      hfr1bw]
  · -- the bias tensor
    intro bt hbt bf hbf
    have hbtmem : bt ∈ (L.netPi.layers[i]).weight :: (L.netPi.layers[i]).bias.toList :=
      List.mem_cons_of_mem _ (Option.mem_toList.mpr hbt)
    have hbtlt : bt < s.paramData.length :=
      h3 _ (bias_mem_params (List.getElem_mem hi) hbt)
    have hfr1b := (foldl_copyLayer_frame ((L.net.layers.zip L.netPi.layers).take i)
      h1 (hbase (bias_mem_params (List.getElem_mem hin) hbf))).2
    have hwne : (L.netPi.layers[i]).weight ≠ bf := by
      intro he
      exact h6 bf (bias_mem_params (List.getElem_mem hin) hbf)
        (he ▸ weight_mem_params (List.getElem_mem hi))
    have hb2 := dataOf_copyLayer_bias hs1wf hck hbt hbf
      (by rw [hs1len]; exact hbtlt) hwne
    rw [(foldl_copyLayer_frame _ (WF_copyLayer hs1wf _ _) (hdrop hbtmem)).2, hb2,
      hfr1b]

theorem update_pi_other_untouched {L : Learner} {s : Store} (hwf : LearnerWF L s)
    {i : Nat} (hi : i < L.netPi.layers.length)
    (hck : (L.netPi.layers.getD i default).copyKind = false) :
    ((L.update_pi s).refOf (L.netPi.layers.getD i default).weight
        = s.refOf (L.netPi.layers.getD i default).weight ∧
      (L.update_pi s).dataOf (L.netPi.layers.getD i default).weight
        = s.dataOf (L.netPi.layers.getD i default).weight) ∧
    ∀ bt ∈ (L.netPi.layers.getD i default).bias,
      (L.update_pi s).refOf bt = s.refOf bt ∧
      (L.update_pi s).dataOf bt = s.dataOf bt := by
  obtain ⟨h1, h2, h3, h4, h5, h6, h7, h8, h9⟩ := hwf
  rw [getD_eq_getElem_of_lt hi default] at hck ⊢
  have hfr : ∀ {q : ParamId},
      q ∈ (L.netPi.layers[i]).weight :: (L.netPi.layers[i]).bias.toList →
      ∀ pr ∈ L.net.layers.zip L.netPi.layers, q ∉ writesOf pr := by
    intro q hq pr hpr hmem
    obtain ⟨j, hj, he⟩ := List.mem_iff_getElem.mp hpr
    have hjpi : j < L.netPi.layers.length := by
      rw [List.length_zip] at hj
      omega
    have hpr2 : pr.2 = L.netPi.layers[j] := by
      rw [← he, List.getElem_zip]
    have hsub := writesOf_subset_layer q hmem
    rw [hpr2] at hsub
    by_cases hji : j = i
    · subst hji
      have hck2 : pr.2.copyKind = false := by rw [hpr2]; exact hck
      rw [writesOf] at hmem
      simp [hck2] at hmem
    · exact netPi_layer_pid_disjoint h5 hi hjpi hji hq hsub
  rw [update_pi_def]
  refine ⟨⟨?_, ?_⟩, ?_⟩
  · exact (foldl_copyLayer_frame _ h1 (hfr (List.mem_cons_self _ _))).1
  · exact (foldl_copyLayer_frame _ h1 (hfr (List.mem_cons_self _ _))).2
  · intro bt hbt
    have hm : bt ∈ (L.netPi.layers[i]).weight :: (L.netPi.layers[i]).bias.toList :=
      List.mem_cons_of_mem _ (Option.mem_toList.mpr hbt)
    exact ⟨(foldl_copyLayer_frame _ h1 (hfr hm)).1,
      (foldl_copyLayer_frame _ h1 (hfr hm)).2⟩

/-- C3: for every state of the base network, `Learner.update_pi`
(reset_working_network) leaves every base parameter untouched, makes the
weight (and, when present, bias) tensor of each linear / conv2d /
batchNorm2d working module value-equal to the corresponding base module's
tensor with freshly allocated independent storage — after the reset,
mutating a working parameter in place does not change any base parameter
and vice versa — while every module of any other kind is left untouched:
its parameters keep both their storage binding and their values. -/
theorem C3_reset_working_network (L : Learner) (s : Store) (hwf : LearnerWF L s) :
    (∀ p ∈ L.net.params, (L.update_pi s).dataOf p = s.dataOf p) ∧
    (∀ i ∈ List.range L.netPi.layers.length,
      (L.netPi.layers.getD i default).copyKind = true →
      ((L.update_pi s).dataOf (L.netPi.layers.getD i default).weight
          = s.dataOf (L.net.layers.getD i default).weight ∧
        ∀ bt ∈ (L.netPi.layers.getD i default).bias,
        ∀ bf ∈ (L.net.layers.getD i default).bias,
          (L.update_pi s).dataOf bt = s.dataOf bf)) ∧
    (∀ p ∈ L.net.params, ∀ q ∈ L.netPi.params, ∀ v : Val,
      ((L.update_pi s).writeData q v).dataOf p = (L.update_pi s).dataOf p ∧
      ((L.update_pi s).writeData p v).dataOf q = (L.update_pi s).dataOf q) ∧
    (∀ i ∈ List.range L.netPi.layers.length,
      (L.netPi.layers.getD i default).copyKind = false →
      (((L.update_pi s).refOf (L.netPi.layers.getD i default).weight
          = s.refOf (L.netPi.layers.getD i default).weight ∧
        (L.update_pi s).dataOf (L.netPi.layers.getD i default).weight
          = s.dataOf (L.netPi.layers.getD i default).weight) ∧
        ∀ bt ∈ (L.netPi.layers.getD i default).bias,
          (L.update_pi s).refOf bt = s.refOf bt ∧
          (L.update_pi s).dataOf bt = s.dataOf bt)) := by
  refine ⟨?_, ?_, ?_, ?_⟩
  · intro p hp
    exact dataOf_update_pi_notPi hwf.1 (hwf.2.2.2.2.2.1 p hp)
  · intro i hi hck
    exact update_pi_copies hwf (List.mem_range.mp hi) hck
  · intro p hp q hq v
    have hwf2 := LearnerWF_update_pi hwf
    have hne : p ≠ q := fun he => hwf.2.2.2.2.2.1 p hp (he ▸ hq)
    exact ⟨Store.dataOf_writeData_ne hwf2.1 (Ne.symm hne) v,
      Store.dataOf_writeData_ne hwf2.1 hne v⟩
  · intro i hi hck
    exact update_pi_other_untouched hwf (List.mem_range.mp hi) hck

/-- Witness for C3 on the concrete two-module learner: one linear module
(copied) and one module of unhandled kind (left alone). -/
theorem C3_reset_working_network_witness :
    LearnerWF exLearner exStore ∧
    ((∀ p ∈ exLearner.net.params,
        (exLearner.update_pi exStore).dataOf p = exStore.dataOf p) ∧
      (∀ i ∈ List.range exLearner.netPi.layers.length,
        (exLearner.netPi.layers.getD i default).copyKind = true →
        ((exLearner.update_pi exStore).dataOf
            (exLearner.netPi.layers.getD i default).weight
            = exStore.dataOf (exLearner.net.layers.getD i default).weight ∧
          ∀ bt ∈ (exLearner.netPi.layers.getD i default).bias,
          ∀ bf ∈ (exLearner.net.layers.getD i default).bias,
            (exLearner.update_pi exStore).dataOf bt = exStore.dataOf bf)) ∧
      (∀ p ∈ exLearner.net.params, ∀ q ∈ exLearner.netPi.params, ∀ v : Val,
        ((exLearner.update_pi exStore).writeData q v).dataOf p
            = (exLearner.update_pi exStore).dataOf p ∧
        ((exLearner.update_pi exStore).writeData p v).dataOf q
            = (exLearner.update_pi exStore).dataOf q) ∧
      (∀ i ∈ List.range exLearner.netPi.layers.length,
        (exLearner.netPi.layers.getD i default).copyKind = false →
        (((exLearner.update_pi exStore).refOf
            (exLearner.netPi.layers.getD i default).weight
            = exStore.refOf (exLearner.netPi.layers.getD i default).weight ∧
          (exLearner.update_pi exStore).dataOf
            (exLearner.netPi.layers.getD i default).weight
            = exStore.dataOf (exLearner.netPi.layers.getD i default).weight) ∧
          ∀ bt ∈ (exLearner.netPi.layers.getD i default).bias,
            (exLearner.update_pi exStore).refOf bt = exStore.refOf bt ∧
            (exLearner.update_pi exStore).dataOf bt = exStore.dataOf bt))) :=
  ⟨by decide, C3_reset_working_network exLearner exStore (by decide)⟩

/-- C1: during the gradient-injection phase of meta_train
(`MetaLearner.write_grads`), for every base-network parameter at position
`i` the gradient actually used by the optimizer step equals the accumulated
value `sum_grads_pi[i]` — the hook substitutes it positionally, and the
gradients the dummy backward pass would naturally produce are discarded
(the whole call does not depend on them) — so the post-step parameters
equal the optimizer rule applied to the accumulated gradient. -/
theorem C1_write_grads_injects_sum (M : MetaLearner) (stepRule : Val → Val → Val)
    (dummyGrads sumGrads : List Val) (st : MetaState)
    (hwf : st.store.WF)
    (hnd : M.learner.parameters.Nodup)
    (hin : ∀ p ∈ M.learner.parameters, p < st.store.paramData.length)
    (hopt : M.metaOptPids = M.learner.parameters)
    (hhk : st.hooks = [])
    (hd : dummyGrads.length = M.learner.parameters.length)
    (hs : sumGrads.length = M.learner.parameters.length) :
    wgIsOk (M.write_grads stepRule dummyGrads sumGrads st) = true ∧
    (wgState (M.write_grads stepRule dummyGrads sumGrads st)).gradBuf
      = M.learner.parameters.zip sumGrads ∧
    (∀ i ∈ List.range M.learner.parameters.length,
      (wgState (M.write_grads stepRule dummyGrads sumGrads st)).store.dataOf
          (M.learner.parameters.getD i 0)
        = stepRule (st.store.dataOf (M.learner.parameters.getD i 0))
            (sumGrads.getD i [])) ∧
    (∀ dg2 : List Val, dg2.length = M.learner.parameters.length →
      M.write_grads stepRule dg2 sumGrads st
        = M.write_grads stepRule dummyGrads sumGrads st) ∧
    (wgState (M.write_grads stepRule dummyGrads sumGrads st)).hooks = [] := by
  have hle : M.learner.parameters.length ≤ sumGrads.length := le_of_eq hs.symm
  have hok := write_grads_ok stepRule hnd hhk hd hle
  refine ⟨by rw [hok]; rfl, by rw [hok]; rfl, ?_, ?_, by rw [hok]; exact hhk⟩
  · intro i hi
    have hi2 : i < M.learner.parameters.length := List.mem_range.mp hi
    have hig : i < sumGrads.length := by omega
    rw [hok]
    show (stepWith stepRule (M.learner.parameters.zip sumGrads) M.metaOptPids
        st.store).dataOf (M.learner.parameters.getD i 0) = _
    rw [hopt, getD_eq_getElem_of_lt hi2 0,
      getD_eq_getElem_of_lt hig ([] : Val),
      stepWith_zip_dataOf stepRule hwf hnd hin hi2 hig]
  · intro dg2 hd2
    rw [hok, write_grads_ok stepRule hnd hhk hd2 hle]

/-- Witness for C1 on the concrete meta-learner: three base parameters,
accumulated gradients substituted positionally. -/
theorem C1_write_grads_injects_sum_witness :
    (exState.store.WF ∧ exMeta.learner.parameters.Nodup ∧
      (∀ p ∈ exMeta.learner.parameters, p < exState.store.paramData.length) ∧
      exMeta.metaOptPids = exMeta.learner.parameters ∧ exState.hooks = [] ∧
      ([[9, 9], [9], [9]] : List Val).length = exMeta.learner.parameters.length ∧
      ([[1, 1], [1], [1]] : List Val).length = exMeta.learner.parameters.length) ∧
    (wgIsOk (exMeta.write_grads exStep [[9, 9], [9], [9]] [[1, 1], [1], [1]] exState)
        = true ∧
      (wgState (exMeta.write_grads exStep [[9, 9], [9], [9]] [[1, 1], [1], [1]]
          exState)).gradBuf
        = exMeta.learner.parameters.zip [[1, 1], [1], [1]] ∧
      (∀ i ∈ List.range exMeta.learner.parameters.length,
        (wgState (exMeta.write_grads exStep [[9, 9], [9], [9]] [[1, 1], [1], [1]]
            exState)).store.dataOf (exMeta.learner.parameters.getD i 0)
          = exStep (exState.store.dataOf (exMeta.learner.parameters.getD i 0))
              (([[1, 1], [1], [1]] : List Val).getD i [])) ∧
      (∀ dg2 : List Val, dg2.length = exMeta.learner.parameters.length →
        exMeta.write_grads exStep dg2 [[1, 1], [1], [1]] exState
          = exMeta.write_grads exStep [[9, 9], [9], [9]] [[1, 1], [1], [1]] exState) ∧
      (wgState (exMeta.write_grads exStep [[9, 9], [9], [9]] [[1, 1], [1], [1]]
          exState)).hooks = []) :=
  ⟨⟨by decide, by decide, by decide, by decide, by decide, by decide, by decide⟩,
    C1_write_grads_injects_sum exMeta exStep [[9, 9], [9], [9]] [[1, 1], [1], [1]]
      exState (by decide) (by decide) (by decide) (by decide) (by decide) (by decide)
      (by decide)⟩

/-- C4: the inner-loop adaptation performed by `Learner.forward` runs
exactly `num_updates` iterations, each computing the working network's
support-set loss gradient and applying one step of plain (non-momentum)
stochastic gradient descent with the fixed learning rate 1e-3 to the
working network's parameters only; every base-network parameter is left
unchanged.  The working-network values after the inner phase are exactly
the `num_updates`-fold iterate of the one-step SGD map applied to the
freshly reset working values. -/
theorem C4_inner_loop_sgd (L : Learner) (O : EpisodeOracles)
    (num_updates idx : Nat) (st : MetaState) (hwf : LearnerWF L st.store)
    (hg : ∀ vs : List Val, (O.gradSupport vs).length = L.netPi.params.length) :
    L.netPi.params.map (L.forward O num_updates idx st).1.store.dataOf
      = (sgdStepSpec O.gradSupport)^[num_updates]
          (L.netPi.params.map (L.update_pi st.store).dataOf) ∧
    (∀ p ∈ L.net.params,
      (L.forward O num_updates idx st).1.store.dataOf p = st.store.dataOf p) ∧
    learner_lr = 1 / 1000 := by
  refine ⟨?_, ?_, rfl⟩
  · rw [Learner.forward_store]
    exact innerLoop_vals num_updates (LearnerWF_update_pi hwf) hg
  · intro p hp
    exact forward_dataOf_notPi hwf (hwf.2.2.2.2.2.1 p hp)

/-- Witness for C4 on the concrete learner with two inner updates. -/
theorem C4_inner_loop_sgd_witness :
    (LearnerWF exLearner exState.store ∧
      ∀ vs : List Val,
        (exOracle.gradSupport vs).length = exLearner.netPi.params.length) ∧
    (exLearner.netPi.params.map
        (exLearner.forward exOracle 2 0 exState).1.store.dataOf
      = (sgdStepSpec exOracle.gradSupport)^[2]
          (exLearner.netPi.params.map (exLearner.update_pi exState.store).dataOf) ∧
    (∀ p ∈ exLearner.net.params,
      (exLearner.forward exOracle 2 0 exState).1.store.dataOf p
        = exState.store.dataOf p) ∧
    learner_lr = 1 / 1000) :=
  ⟨⟨by decide, fun vs => rfl⟩,
    C4_inner_loop_sgd exLearner exOracle 2 0 exState (by decide) (fun vs => rfl)⟩

/-- C6: in every call to meta_train (`MetaLearner.forward`) on a non-empty
meta-batch, the base network's parameters are mutated exactly once — the
event trace records one single optimizer step, placed after all episode
runs and after the one dummy forward pass, which uses the FIRST episode's
support set (index 0) — and the post-call base parameters equal the
optimizer rule applied to the pre-call values and the gradient sum
accumulated by the episode loop. -/
theorem C6_meta_train_single_step (M : MetaLearner) (stepRule : Val → Val → Val)
    (eps : List EpisodeOracles) (num_updates : Nat) (st : MetaState)
    (hwf : LearnerWF M.learner st.store)
    (hopt : M.metaOptPids = M.learner.parameters)
    (hhk : st.hooks = [])
    (hne : eps ≠ [])
    (hq : ∀ O ∈ eps, ∀ vs : List Val,
      (O.gradQuery vs).length = M.learner.parameters.length)
    (hdg : ∀ O ∈ eps, ∀ vs : List Val,
      (O.dummyGrad vs).length = M.learner.parameters.length) :
    mtIsOk (M.forward stepRule eps num_updates st) = true ∧
    (mtOut (M.forward stepRule eps num_updates st)).1.events
      = st.events ++ (List.range eps.length).map MEvent.episodeRun
          ++ [MEvent.dummyForward 0, MEvent.optStep M.metaOptPids] ∧
    ∀ i ∈ List.range M.learner.parameters.length,
      (mtOut (M.forward stepRule eps num_updates st)).1.store.dataOf
          (M.learner.parameters.getD i 0)
        = stepRule (st.store.dataOf (M.learner.parameters.getD i 0))
            (((metaLoop M.learner num_updates eps 0 none [] [] st).1.getD
              []).getD i []) := by
  have hnd : M.learner.parameters.Nodup := hwf.2.2.2.1
  cases eps with
  | nil => exact absurd rfl hne
  | cons O0 rest =>
  have hsum := metaLoop_sum_length M.learner num_updates
    M.learner.parameters.length (O0 :: rest) hq 0 none [] [] st (Or.inl rfl)
  rcases hsum with ⟨_, _, habs⟩ | ⟨sg, hacc, hlen⟩
  · exact absurd habs (by simp)
  have hLW := metaLoop_LearnerWF M.learner num_updates (O0 :: rest) 0 none [] [] st hwf
  have hhooks2 : (metaLoop M.learner num_updates (O0 :: rest) 0 none [] []
      st).2.2.2.hooks = [] := by
    rw [metaLoop_hooks]
    exact hhk
  have hd2 : (O0.dummyGrad (M.learner.net.params.map
      (metaLoop M.learner num_updates (O0 :: rest) 0 none [] [] st).2.2.2.store.dataOf)).length
      = M.learner.parameters.length :=
    hdg O0 (List.mem_cons_self O0 rest) _
  have hle : M.learner.parameters.length ≤ sg.length := le_of_eq hlen.symm
  have hok := @write_grads_ok M stepRule
    (O0.dummyGrad (M.learner.net.params.map
      (metaLoop M.learner num_updates (O0 :: rest) 0 none [] []
        st).2.2.2.store.dataOf)) sg
    { (metaLoop M.learner num_updates (O0 :: rest) 0 none [] [] st).2.2.2 with
      events := (metaLoop M.learner num_updates (O0 :: rest) 0 none [] []
        st).2.2.2.events ++ [MEvent.dummyForward 0] }
    hnd hhooks2 hd2 hle
  have hfw : M.forward stepRule (O0 :: rest) num_updates st
      = Except.ok
          (⟨stepWith stepRule (M.learner.parameters.zip sg) M.metaOptPids
              (metaLoop M.learner num_updates (O0 :: rest) 0 none [] []
                st).2.2.2.store,
            (metaLoop M.learner num_updates (O0 :: rest) 0 none [] []
              st).2.2.2.hooks,
            M.learner.parameters.zip sg,
            ((metaLoop M.learner num_updates (O0 :: rest) 0 none [] []
                st).2.2.2.events ++ [MEvent.dummyForward 0])
              ++ [MEvent.optStep M.metaOptPids]⟩,
           (metaLoop M.learner num_updates (O0 :: rest) 0 none [] [] st).2.1,
           (metaLoop M.learner num_updates (O0 :: rest) 0 none [] [] st).2.2.1) := by
    rw [MetaLearner.forward]
    rw [hacc]
    rw [show (O0 :: rest).head? = some O0 from rfl]
    show (match M.write_grads stepRule
        (O0.dummyGrad (M.learner.net.params.map
          (metaLoop M.learner num_updates (O0 :: rest) 0 none [] []
            st).2.2.2.store.dataOf)) sg
        { (metaLoop M.learner num_updates (O0 :: rest) 0 none [] [] st).2.2.2 with
          events := (metaLoop M.learner num_updates (O0 :: rest) 0 none [] []
            st).2.2.2.events ++ [MEvent.dummyForward 0] } with
      | Except.ok st3 => Except.ok (st3,
          (metaLoop M.learner num_updates (O0 :: rest) 0 none [] [] st).2.1,
          (metaLoop M.learner num_updates (O0 :: rest) 0 none [] [] st).2.2.1)
      | Except.error e => Except.error e) = _
    rw [hok]
  refine ⟨by rw [hfw]; rfl, ?_, ?_⟩
  · rw [hfw]
    show ((metaLoop M.learner num_updates (O0 :: rest) 0 none [] []
        st).2.2.2.events ++ [MEvent.dummyForward 0]) ++ [MEvent.optStep M.metaOptPids]
      = _
    rw [metaLoop_events]
    simp [List.append_assoc, List.range_eq_range']
  · intro i hi
    have hi2 : i < M.learner.parameters.length := List.mem_range.mp hi
    have hig : i < sg.length := by omega
    rw [hfw, hacc]
    show (stepWith stepRule (M.learner.parameters.zip sg) M.metaOptPids
        (metaLoop M.learner num_updates (O0 :: rest) 0 none [] []
          st).2.2.2.store).dataOf (M.learner.parameters.getD i 0) = _
    rw [hopt, getD_eq_getElem_of_lt hi2 0]
    rw [stepWith_zip_dataOf stepRule hLW.1 hnd hLW.2.1 hi2 hig]
    rw [metaLoop_dataOf_notPi M.learner num_updates (O0 :: rest) 0 none [] [] st hwf
      (hwf.2.2.2.2.2.1 _ (List.getElem_mem hi2))]
    rw [show (some sg).getD [] = sg from rfl, getD_eq_getElem_of_lt hig ([] : Val)]

/-- Witness for C6 on the concrete meta-learner with a two-episode batch. -/
theorem C6_meta_train_single_step_witness :
    (LearnerWF exMeta.learner exState.store ∧
      exMeta.metaOptPids = exMeta.learner.parameters ∧ exState.hooks = [] ∧
      ([exOracle, exOracle] : List EpisodeOracles) ≠ []) ∧
    (mtIsOk (exMeta.forward exStep [exOracle, exOracle] 2 exState) = true ∧
      (mtOut (exMeta.forward exStep [exOracle, exOracle] 2 exState)).1.events
        = exState.events ++ (List.range ([exOracle, exOracle]
              : List EpisodeOracles).length).map MEvent.episodeRun
            ++ [MEvent.dummyForward 0, MEvent.optStep exMeta.metaOptPids] ∧
      ∀ i ∈ List.range exMeta.learner.parameters.length,
        (mtOut (exMeta.forward exStep [exOracle, exOracle] 2 exState)).1.store.dataOf
            (exMeta.learner.parameters.getD i 0)
          = exStep (exState.store.dataOf (exMeta.learner.parameters.getD i 0))
              (((metaLoop exMeta.learner 2 [exOracle, exOracle] 0 none [] []
                exState).1.getD []).getD i [])) :=
  ⟨⟨by decide, by decide, by decide, List.cons_ne_nil _ _⟩,
    C6_meta_train_single_step exMeta exStep [exOracle, exOracle] 2 exState
      (by decide) (by decide) (by decide) (List.cons_ne_nil _ _)
      (fun O hO vs => by
        rcases List.mem_cons.mp hO with h | h
        · subst h; rfl
        · rcases List.mem_cons.mp h with h2 | h2
          · subst h2; rfl
          · exact absurd h2 (List.not_mem_nil O))
      (fun O hO vs => by
        rcases List.mem_cons.mp hO with h | h
        · subst h; rfl
        · rcases List.mem_cons.mp h with h2 | h2
          · subst h2; rfl
          · exact absurd h2 (List.not_mem_nil O))⟩

/-- C7: meta_eval (`MetaLearner.pred`) runs the same per-episode loop as
meta_train — its final state equals the state after meta_train's episode
loop — but never accumulates gradients, never registers hooks and never
applies an optimizer step (the trace holds only episode events, the hook
list and gradient buffers are unchanged), so every base-network parameter
is identical before and after the call; it returns the per-episode loss
list plus the arithmetic mean, across the batch, of each of the six
metrics. -/
theorem C7_pred_is_pure_eval (M : MetaLearner) (eps : List EpisodeOracles)
    (num_updates : Nat) (st : MetaState) (hwf : LearnerWF M.learner st.store) :
    (M.pred eps num_updates st).1
      = (metaLoop M.learner num_updates eps 0 none [] [] st).2.2.2 ∧
    (M.pred eps num_updates st).1.hooks = st.hooks ∧
    (M.pred eps num_updates st).1.gradBuf = st.gradBuf ∧
    (M.pred eps num_updates st).1.events
      = st.events ++ (List.range eps.length).map MEvent.episodeRun ∧
    (∀ p ∈ M.learner.parameters,
      (M.pred eps num_updates st).1.store.dataOf p = st.store.dataOf p) ∧
    (M.pred eps num_updates st).2.1
      = (episodeOuts M.learner num_updates eps 0 st).map (fun x => x.1) ∧
    (M.pred eps num_updates st).2.2.1
      = mean ((episodeOuts M.learner num_updates eps 0 st).map fun x => x.2.acc) ∧
    (M.pred eps num_updates st).2.2.2.1
      = mean ((episodeOuts M.learner num_updates eps 0 st).map
          fun x => x.2.pre_score) ∧
    (M.pred eps num_updates st).2.2.2.2.1
      = mean ((episodeOuts M.learner num_updates eps 0 st).map
          fun x => x.2.recall_score) ∧
    (M.pred eps num_updates st).2.2.2.2.2.1
      = mean ((episodeOuts M.learner num_updates eps 0 st).map
          fun x => x.2.mcc_score) ∧
    (M.pred eps num_updates st).2.2.2.2.2.2.1
      = mean ((episodeOuts M.learner num_updates eps 0 st).map
          fun x => x.2.roc_score) ∧
    (M.pred eps num_updates st).2.2.2.2.2.2.2
      = mean ((episodeOuts M.learner num_updates eps 0 st).map
          fun x => x.2.f1_score) ∧
    (episodeOuts M.learner num_updates eps 0 st).length = eps.length := by
  have hst : (M.pred eps num_updates st).1
      = (predLoop M.learner num_updates eps 0 ⟨[], [], [], [], [], [], []⟩ st).2 := rfl
  have hse := metaLoop_state_eq_predLoop M.learner num_updates eps 0 none [] []
    ⟨[], [], [], [], [], [], []⟩ st
  have hl := predLoop_lists M.learner num_updates eps 0 ⟨[], [], [], [], [], [], []⟩ st
  refine ⟨hst.trans hse, ?_, ?_, ?_, ?_, ?_, ?_, ?_, ?_, ?_, ?_, ?_,
    length_episodeOuts M.learner num_updates eps 0 st⟩
  · rw [hst, hse, metaLoop_hooks]
  · rw [hst, hse, metaLoop_gradBuf]
  · rw [hst, hse, metaLoop_events, List.range_eq_range']
  · intro p hp
    rw [hst, hse]
    exact metaLoop_dataOf_notPi M.learner num_updates eps 0 none [] [] st hwf
      (hwf.2.2.2.2.2.1 p hp)
  · show (predLoop M.learner num_updates eps 0 ⟨[], [], [], [], [], [], []⟩
      st).1.losses = _
    rw [hl]
    simp
  · show mean (predLoop M.learner num_updates eps 0 ⟨[], [], [], [], [], [], []⟩
      st).1.accs = _
    rw [hl]
    simp
  · show mean (predLoop M.learner num_updates eps 0 ⟨[], [], [], [], [], [], []⟩
      st).1.pres = _
    rw [hl]
    simp
  · show mean (predLoop M.learner num_updates eps 0 ⟨[], [], [], [], [], [], []⟩
      st).1.recalls = _
    rw [hl]
    simp
  · show mean (predLoop M.learner num_updates eps 0 ⟨[], [], [], [], [], [], []⟩
      st).1.mccs = _
    rw [hl]
    simp
  · show mean (predLoop M.learner num_updates eps 0 ⟨[], [], [], [], [], [], []⟩
      st).1.rocs = _
    rw [hl]
    simp
  · show mean (predLoop M.learner num_updates eps 0 ⟨[], [], [], [], [], [], []⟩
      st).1.f1s = _
    rw [hl]
    simp

/-- Witness for C7 on the concrete meta-learner with a two-episode batch. -/
theorem C7_pred_is_pure_eval_witness :
    LearnerWF exMeta.learner exState.store ∧
    ((exMeta.pred [exOracle, exOracle] 2 exState).1
        = (metaLoop exMeta.learner 2 [exOracle, exOracle] 0 none [] []
            exState).2.2.2 ∧
      (exMeta.pred [exOracle, exOracle] 2 exState).1.hooks = exState.hooks ∧
      (exMeta.pred [exOracle, exOracle] 2 exState).1.gradBuf = exState.gradBuf ∧
      (exMeta.pred [exOracle, exOracle] 2 exState).1.events
        = exState.events ++ (List.range ([exOracle, exOracle]
            : List EpisodeOracles).length).map MEvent.episodeRun ∧
      (∀ p ∈ exMeta.learner.parameters,
        (exMeta.pred [exOracle, exOracle] 2 exState).1.store.dataOf p
          = exState.store.dataOf p) ∧
      (exMeta.pred [exOracle, exOracle] 2 exState).2.1
        = (episodeOuts exMeta.learner 2 [exOracle, exOracle] 0 exState).map
            (fun x => x.1) ∧
      (exMeta.pred [exOracle, exOracle] 2 exState).2.2.1
        = mean ((episodeOuts exMeta.learner 2 [exOracle, exOracle] 0 exState).map
            fun x => x.2.acc) ∧
      (exMeta.pred [exOracle, exOracle] 2 exState).2.2.2.1
        = mean ((episodeOuts exMeta.learner 2 [exOracle, exOracle] 0 exState).map
            fun x => x.2.pre_score) ∧
      (exMeta.pred [exOracle, exOracle] 2 exState).2.2.2.2.1
        = mean ((episodeOuts exMeta.learner 2 [exOracle, exOracle] 0 exState).map
            fun x => x.2.recall_score) ∧
      (exMeta.pred [exOracle, exOracle] 2 exState).2.2.2.2.2.1
        = mean ((episodeOuts exMeta.learner 2 [exOracle, exOracle] 0 exState).map
            fun x => x.2.mcc_score) ∧
      (exMeta.pred [exOracle, exOracle] 2 exState).2.2.2.2.2.2.1
        = mean ((episodeOuts exMeta.learner 2 [exOracle, exOracle] 0 exState).map
            fun x => x.2.roc_score) ∧
      (exMeta.pred [exOracle, exOracle] 2 exState).2.2.2.2.2.2.2
        = mean ((episodeOuts exMeta.learner 2 [exOracle, exOracle] 0 exState).map
            fun x => x.2.f1_score) ∧
      (episodeOuts exMeta.learner 2 [exOracle, exOracle] 0 exState).length
        = ([exOracle, exOracle] : List EpisodeOracles).length) :=
  ⟨by decide, C7_pred_is_pure_eval exMeta [exOracle, exOracle] 2 exState (by decide)⟩

/-- C5 (evaluation at the failing input, supporting the code_bug verdict):
`write_grads` removes its hooks only in a plain loop placed after
`dummy_loss.backward()` and `self.optimizer.step()`; there is no
try/finally-style scoped cleanup.  On a concrete input whose dummy
backward pass raises — a hook indexes past the end of `sum_grads_pi`
(length 1 against 3 base parameters) — the call exits exceptionally with
all three registered hooks still in place (and no parameter changed), so
the claim that zero hooks remain on every exit path fails on the code. -/
theorem C5_hooks_remain_on_exception :
    wgIsOk (exMeta.write_grads exStep [[9, 9], [9], [9]] [[1, 1]] exState) = false ∧
    (exitHooks (exMeta.write_grads exStep [[9, 9], [9], [9]] [[1, 1]]
      exState)).length = 3 ∧
    exitHooks (exMeta.write_grads exStep [[9, 9], [9], [9]] [[1, 1]] exState) ≠ [] ∧
    (wgState (exMeta.write_grads exStep [[9, 9], [9], [9]] [[1, 1]]
      exState)).store = exState.store := by
  decide

/-- C8 counterexample: with 3 base parameters and an accumulated gradient
vector of length 4, the counts mismatch yet the meta-step does NOT abort:
the dummy backward succeeds, the optimizer step runs (an optStep event is
appended) and base parameter 0 changes value. -/
theorem C8_counterexample_longer_vector_steps :
    ([[1, 1], [1], [1], [5]] : List Val).length ≠ exMeta.learner.parameters.length ∧
    wgIsOk (exMeta.write_grads exStep [[9, 9], [9], [9]] [[1, 1], [1], [1], [5]]
      exState) = true ∧
    (wgState (exMeta.write_grads exStep [[9, 9], [9], [9]] [[1, 1], [1], [1], [5]]
      exState)).store.dataOf 0 ≠ exState.store.dataOf 0 ∧
    (wgState (exMeta.write_grads exStep [[9, 9], [9], [9]] [[1, 1], [1], [1], [5]]
      exState)).events ≠ exState.events := by
  decide

/-- C8 (amended): if the accumulated gradient vector is SHORTER than the
base network's parameter sequence, the dummy backward pass raises inside
the first out-of-range hook and the meta-step aborts — no optimizer step
is applied, the tensor storage and the event trace are unchanged.  If it
is at least as long, the step proceeds, using `sum_grads_pi[i]` for each
parameter position `i` and silently ignoring the extra entries. -/
theorem C8_mismatch_aborts_only_when_short (M : MetaLearner)
    (stepRule : Val → Val → Val) (dummyGrads sumGrads : List Val) (st : MetaState)
    (hwf : st.store.WF)
    (hnd : M.learner.parameters.Nodup)
    (hin : ∀ p ∈ M.learner.parameters, p < st.store.paramData.length)
    (hopt : M.metaOptPids = M.learner.parameters)
    (hhk : st.hooks = [])
    (hd : dummyGrads.length = M.learner.parameters.length) :
    (sumGrads.length < M.learner.parameters.length →
      wgIsOk (M.write_grads stepRule dummyGrads sumGrads st) = false ∧
      (wgState (M.write_grads stepRule dummyGrads sumGrads st)).store = st.store ∧
      (wgState (M.write_grads stepRule dummyGrads sumGrads st)).events
        = st.events) ∧
    (M.learner.parameters.length ≤ sumGrads.length →
      wgIsOk (M.write_grads stepRule dummyGrads sumGrads st) = true ∧
      ∀ i ∈ List.range M.learner.parameters.length,
        (wgState (M.write_grads stepRule dummyGrads sumGrads st)).store.dataOf
            (M.learner.parameters.getD i 0)
          = stepRule (st.store.dataOf (M.learner.parameters.getD i 0))
              (sumGrads.getD i [])) := by
  constructor
  · intro hshort
    rw [write_grads_err stepRule hnd hhk hd hshort]
    exact ⟨rfl, rfl, rfl⟩
  · intro hlong
    have hok := write_grads_ok stepRule hnd hhk hd hlong
    refine ⟨by rw [hok]; rfl, ?_⟩
    intro i hi
    have hi2 : i < M.learner.parameters.length := List.mem_range.mp hi
    have hig : i < sumGrads.length := by omega
    rw [hok]
    show (stepWith stepRule (M.learner.parameters.zip sumGrads) M.metaOptPids
        st.store).dataOf (M.learner.parameters.getD i 0) = _
    rw [hopt, getD_eq_getElem_of_lt hi2 0,
      getD_eq_getElem_of_lt hig ([] : Val),
      stepWith_zip_dataOf stepRule hwf hnd hin hi2 hig]

/-- Witness for the amended C8 at the concrete meta-learner, exercising the
short direction with a length-1 accumulated vector. -/
theorem C8_mismatch_aborts_only_when_short_witness :
    (exState.store.WF ∧ exMeta.learner.parameters.Nodup ∧
      (∀ p ∈ exMeta.learner.parameters, p < exState.store.paramData.length) ∧
      exMeta.metaOptPids = exMeta.learner.parameters ∧ exState.hooks = [] ∧
      ([[9, 9], [9], [9]] : List Val).length = exMeta.learner.parameters.length) ∧
    ((([[1, 1]] : List Val).length < exMeta.learner.parameters.length →
      wgIsOk (exMeta.write_grads exStep [[9, 9], [9], [9]] [[1, 1]] exState)
          = false ∧
      (wgState (exMeta.write_grads exStep [[9, 9], [9], [9]] [[1, 1]]
          exState)).store = exState.store ∧
      (wgState (exMeta.write_grads exStep [[9, 9], [9], [9]] [[1, 1]]
          exState)).events = exState.events) ∧
    (exMeta.learner.parameters.length ≤ ([[1, 1]] : List Val).length →
      wgIsOk (exMeta.write_grads exStep [[9, 9], [9], [9]] [[1, 1]] exState)
          = true ∧
      ∀ i ∈ List.range exMeta.learner.parameters.length,
        (wgState (exMeta.write_grads exStep [[9, 9], [9], [9]] [[1, 1]]
            exState)).store.dataOf (exMeta.learner.parameters.getD i 0)
          = exStep (exState.store.dataOf (exMeta.learner.parameters.getD i 0))
              (([[1, 1]] : List Val).getD i []))) :=
  ⟨⟨by decide, by decide, by decide, by decide, by decide, by decide⟩,
    C8_mismatch_aborts_only_when_short exMeta exStep [[9, 9], [9], [9]] [[1, 1]]
      exState (by decide) (by decide) (by decide) (by decide) (by decide)
      (by decide)⟩

/-- C9: `Learner.parameters` returns exactly the base network's parameter
objects and excludes every working-network parameter object; consequently
the Adam meta-optimizer built in `MetaLearner.__init__` holds exactly the
base parameters, and every gradient-substitution hook registered by
`write_grads` is attached to a base-network parameter object and never to
a working-network one. -/
theorem C9_parameters_are_base_only (sps1 sps2 : List LayerSpec) :
    (mkLearner sps1 sps2).2.parameters = (mkLearner sps1 sps2).2.net.params ∧
    (∀ p ∈ (mkLearner sps1 sps2).2.parameters,
      p ∉ (mkLearner sps1 sps2).2.netPi.params) ∧
    (mkMetaLearner sps1 sps2).2.metaOptPids
      = (mkMetaLearner sps1 sps2).2.learner.net.params ∧
    ∀ h ∈ hooksFor (mkMetaLearner sps1 sps2).2,
      h.1 ∈ (mkMetaLearner sps1 sps2).2.learner.net.params ∧
      h.1 ∉ (mkMetaLearner sps1 sps2).2.learner.netPi.params := by
  have hdisj : ∀ p ∈ (mkLearner sps1 sps2).2.parameters,
      p ∉ (mkLearner sps1 sps2).2.netPi.params := by
    intro p hp hp2
    rw [Learner.parameters, mkLearner_net_params] at hp
    rw [mkLearner_netPi_params] at hp2
    obtain ⟨i, hi, he⟩ := List.mem_range'.mp hp
    obtain ⟨j, hj, he2⟩ := List.mem_range'.mp hp2
    subst he
    simp only [Nat.zero_add, Nat.one_mul] at he2
    omega
  refine ⟨rfl, hdisj, rfl, ?_⟩
  intro h hmem
  have hin : h.1 ∈ (mkMetaLearner sps1 sps2).2.learner.parameters := by
    rw [hooksFor] at hmem
    obtain ⟨iv, hiv, he⟩ := List.mem_map.mp hmem
    have := List.snd_mem_of_mem_enum hiv
    rw [← he]
    exact this
  exact ⟨hin, hdisj h.1 hin⟩

/-- C10: `Learner.update_pi` rebinds the `.data` of the existing
working-network parameter objects instead of replacing the parameter
objects, so the parameter objects captured by
`optim.SGD(self.net_pi.parameters(), 0.001)` at construction remain exactly
the working network's live parameters after any number of resets: an inner
SGD step performed after n resets still updates the working network's
current values by one plain SGD step. -/
theorem C10_inner_optimizer_stays_live (sps1 sps2 : List LayerSpec)
    (hal : specAligned sps1 sps2) (g : List Val → List Val)
    (hg : ∀ vs : List Val,
      (g vs).length = (mkLearner sps1 sps2).2.netPi.params.length) (n : Nat) :
    (mkLearner sps1 sps2).2.innerOptPids = (mkLearner sps1 sps2).2.netPi.params ∧
    (mkLearner sps1 sps2).2.netPi.params.map
        (innerStep (mkLearner sps1 sps2).2 g
          (((mkLearner sps1 sps2).2.update_pi)^[n] (mkLearner sps1 sps2).1)).dataOf
      = sgdStepSpec g ((mkLearner sps1 sps2).2.netPi.params.map
          ((((mkLearner sps1 sps2).2.update_pi)^[n])
            (mkLearner sps1 sps2).1).dataOf) := by
  have hwf0 := mkLearner_WF hal
  have hwfn : LearnerWF (mkLearner sps1 sps2).2
      (((mkLearner sps1 sps2).2.update_pi)^[n] (mkLearner sps1 sps2).1) := by
    induction n with
    | zero => exact hwf0
    | succ m ih =>
      rw [Function.iterate_succ_apply']
      exact LearnerWF_update_pi ih
  exact ⟨rfl, innerStep_vals hwfn hg⟩

/-- Witness for C10 at the concrete architecture with three resets. -/
theorem C10_inner_optimizer_stays_live_witness :
    (specAligned exSpecs1 exSpecs2 ∧
      ∀ vs : List Val, (exOracle.gradSupport vs).length
        = (mkLearner exSpecs1 exSpecs2).2.netPi.params.length) ∧
    ((mkLearner exSpecs1 exSpecs2).2.innerOptPids
        = (mkLearner exSpecs1 exSpecs2).2.netPi.params ∧
      (mkLearner exSpecs1 exSpecs2).2.netPi.params.map
          (innerStep (mkLearner exSpecs1 exSpecs2).2 exOracle.gradSupport
            (((mkLearner exSpecs1 exSpecs2).2.update_pi)^[3]
              (mkLearner exSpecs1 exSpecs2).1)).dataOf
        = sgdStepSpec exOracle.gradSupport
            ((mkLearner exSpecs1 exSpecs2).2.netPi.params.map
              ((((mkLearner exSpecs1 exSpecs2).2.update_pi)^[3])
                (mkLearner exSpecs1 exSpecs2).1).dataOf)) :=
  ⟨⟨by decide, fun vs => rfl⟩,
    C10_inner_optimizer_stays_live exSpecs1 exSpecs2 (by decide)
      exOracle.gradSupport (fun vs => rfl) 3⟩

/-- C2: for every meta-batch of k ≥ 1 episodes, each producing a
GradientVector of identical shape (`P` parameter tensors, tensor `p` of size
`shape p`), the accumulated gradient built by the episode loop of
`MetaLearner.forward` — starting from the explicit absence state `None
(sum_grads_pi = None)` and folding with element-wise `torch.add` — is `some`
vector equal, at every position, to the element-wise sum of the `k`
per-episode GradientVectors aligned by parameter position. -/
theorem C2_accum_eq_elementwise_sum (gs : List (List Val)) (P : Nat)
    (shape : Nat → Nat) (hk : gs ≠ [])
    (hshape : ∀ g ∈ gs, g.length = P ∧
      ∀ p ∈ List.range P, (g.getD p []).length = shape p) :
    (accumGrads gs).isSome = true ∧
    ∀ p ∈ List.range P, ∀ t ∈ List.range (shape p),
      (((accumGrads gs).getD []).getD p []).getD t 0
        = ∑ i ∈ Finset.range gs.length, ((gs.getD i []).getD p []).getD t 0 := by
  cases gs with
  | nil => exact absurd rfl hk
  | cons g0 rest =>
    obtain ⟨h0l, h0p⟩ := hshape g0 (List.mem_cons_self g0 rest)
    obtain ⟨r, hr, hrl, hrp, hrv⟩ := accumGrads_aux P shape rest g0 h0l
      (fun p hp => h0p p (List.mem_range.mpr hp))
      (fun g h => ⟨(hshape g (List.mem_cons_of_mem g0 h)).1,
        fun p hp => (hshape g (List.mem_cons_of_mem g0 h)).2 p (List.mem_range.mpr hp)⟩)
    have hacc : accumGrads (g0 :: rest) = some r := by
      rw [accumGrads, List.foldl_cons]
      exact hr
    constructor
    · rw [hacc]
      rfl
    · intro p hp t ht
      rw [hacc]
      have hp2 := List.mem_range.mp hp
      have ht2 := List.mem_range.mp ht
      show (r.getD p []).getD t 0 = _
      rw [hrv p hp2 t ht2]
      rw [List.length_cons, Finset.sum_range_succ']
      have hco : ∀ i : Nat, (((g0 :: rest).getD (i + 1) []).getD p []).getD t 0
          = ((rest.getD i []).getD p []).getD t 0 := fun i => rfl
      simp only [hco]
      have hc0 : (((g0 :: rest).getD 0 []).getD p []).getD t 0
          = ((g0.getD p []).getD t 0 : ℚ) := rfl
      rw [hc0]
      ring

/-- Witness for C2 at a concrete meta-batch of two episodes with two
parameter tensors of sizes 2 and 1. -/
theorem C2_accum_eq_elementwise_sum_witness :
    (([[[1, 2], [3]], [[10, 20], [30]]] : List (List Val)) ≠ [] ∧
      ∀ g ∈ ([[[1, 2], [3]], [[10, 20], [30]]] : List (List Val)), g.length = 2 ∧
        ∀ p ∈ List.range 2,
          (g.getD p []).length = (fun p0 => if p0 = 0 then 2 else 1) p) ∧
    ((accumGrads [[[1, 2], [3]], [[10, 20], [30]]]).isSome = true ∧
      ∀ p ∈ List.range 2, ∀ t ∈ List.range ((fun p0 => if p0 = 0 then 2 else 1) p),
        (((accumGrads [[[1, 2], [3]], [[10, 20], [30]]]).getD []).getD p []).getD t 0
          = ∑ i ∈ Finset.range ([[[1, 2], [3]], [[10, 20], [30]]]
              : List (List Val)).length,
            ((([[[1, 2], [3]], [[10, 20], [30]]] : List (List Val)).getD i
              []).getD p []).getD t 0) :=
  ⟨⟨by decide, by decide⟩,
    C2_accum_eq_elementwise_sum [[[1, 2], [3]], [[10, 20], [30]]] 2
      (fun p0 => if p0 = 0 then 2 else 1) (by decide) (by decide)⟩

end KinomeMETA
